import Mathlib

/-!
# Message dispatch of the player: `src/lib/postmessage.js`

A shallow embedding of `parseMessageData`, `postMessage` and `processData`
and the properties of the dispatcher that follow from the code.

* JavaScript data values are the inductive type `JsVal`.
* The callback registry is explicit state, threaded through `processData`.
* What a run does to its waiters is recorded as a list of `Call`s, in order.
* An exception that leaves a function is the `raised` field of its outcome;
  the state reached before the exception is kept, as in JavaScript.
* `JSON.parse` is a built-in of the platform and is a parameter of the
  functions that call it: `none` stands for its `SyntaxError`.
-/

namespace Postmessage

/-! ## Values -/

/-- A JavaScript number. A finite number other than the negative zero is held
as the text that `Number::toString` prints for it (`83`, `-1.5`, `1e+21`): that
text tells apart any two such numbers, and truthiness, string conversion and
`JSON.stringify` are all this module ever asks of a number. -/
inductive JsNum where
  | nan
  | infinity
  | negInfinity
  | negZero
  | finite (text : String)
  deriving DecidableEq, Repr

/-- JavaScript data values: what a message or a call parameter can be.
Strings are sequences of Unicode characters. -/
inductive JsVal where
  | undefined
  | null
  | bool (b : Bool)
  | num (n : JsNum)
  | str (s : String)
  | arr (items : List JsVal)
  | obj (fields : List (String × JsVal))

/-- Exceptions: the `SyntaxError` of `JSON.parse`, a `TypeError` of the
language (reading a property of `null`, calling what is not a function,
converting an object that has no usable `toString`), and an exception raised
by the body of the waiter with the given identity. -/
inductive JsExn where
  | syntaxError
  | typeError
  | thrown (waiter : Nat)
  deriving DecidableEq, Repr

/-- The `Error` object of lines 70-71: `new Error(message)` with `name` set. -/
structure JsError where
  name : JsVal
  message : String

/-- A registered waiter. `callback` is a function (`typeof callback ===
'function'`); `handle` is an object with `resolve` and `reject`. `id` is the
identity of the JavaScript object; the flags tell whether the body of the
function, of `resolve` and of `reject` raises when called. The body of a
waiter is not followed into: it is taken not to call back into the registry
while `processData` runs (section 5 of the spec: no reentrancy). -/
inductive Waiter where
  | callback (id : Nat) (throws : Bool)
  | handle (id : Nat) (resolveThrows : Bool) (rejectThrows : Bool)
  deriving DecidableEq, Repr

/-- One call that `processData` makes on a waiter. -/
inductive Call where
  | called (w : Waiter) (param : JsVal)
  | resolved (w : Waiter) (param : JsVal)
  | rejected (w : Waiter) (error : JsError)

/-- JavaScript truthiness (`ToBoolean`). -/
def truthy : JsVal → Bool
  | .undefined => false
  | .null => false
  | .bool b => b
  | .num .nan => false
  | .num .negZero => false
  | .num (.finite text) => text != "0"
  | .num _ => true
  | .str s => s != ""
  | .arr _ => true
  | .obj _ => true

/-- The property read `v.name` for the names this module reads (`event`,
`method`, `data`, `value`, `name`, `message`), none of which a built-in
prototype defines: a `TypeError` on `null` and `undefined`, the own property
of an object or `undefined`, and `undefined` on every other value. -/
def getProp (v : JsVal) (name : String) : Except JsExn JsVal :=
  match v with
  | .undefined => .error .typeError
  | .null => .error .typeError
  | .obj fields => .ok ((fields.lookup name).getD .undefined)
  | _ => .ok .undefined

/-- The text `Number::toString` prints for a number. -/
def numberText : JsNum → String
  | .nan => "NaN"
  | .infinity => "Infinity"
  | .negInfinity => "-Infinity"
  | .negZero => "0"
  | .finite text => text

mutual
/-- JavaScript `ToString`, as a template literal and `new Error(message)`
apply it; `none` is its `TypeError`. An array joins its items with commas,
`null` and `undefined` items being empty; a plain object gives
`[object Object]` unless an own `toString` property (which is data, hence
not callable) hides the inherited method. -/
def toStr : JsVal → Option String
  | .undefined => some "undefined"
  | .null => some "null"
  | .bool b => some (if b then "true" else "false")
  | .num n => some (numberText n)
  | .str s => some s
  | .arr items => (joinItems items).map (fun parts => ",".intercalate parts)
  | .obj fields => if hasOwnToString fields then none else some "[object Object]"
/-- The item strings of `Array.prototype.join`. -/
def joinItems : List JsVal → Option (List String)
  | [] => some []
  | v :: rest =>
    match (match v with
           | .undefined => some ""
           | .null => some ""
           | w => toStr w), joinItems rest with
    | some s, some ss => some (s :: ss)
    | _, _ => none
/-- Whether the object has an own property named `toString`. -/
def hasOwnToString : List (String × JsVal) → Bool
  | [] => false
  | (k, _) :: rest => k == "toString" || hasOwnToString rest
end

/-! ## The callback registry -/

/-- Modelled from the spec: the storage of the callback registry
(`./callbacks`, imported on line 5, is not among the sources). Section 6
describes it as waiters looked up by key, the keys being strings (a method
name, or `event:` followed by an event name): a registry is the sequence of
waiters stored under each string. -/
abbrev Registry := String → List Waiter

/-- Modelled from the spec: `getCallbacks` of `./callbacks`, "getCallbacks(endpoint,
key) -> sequence of waiters" (section 6). It returns the sequence stored
under the key; nothing is stored under a key that is not a string. -/
def getCallbacks (reg : Registry) (key : JsVal) : List Waiter :=
  match key with
  | .str k => reg k
  | _ => []

/-- Modelled from the spec: `removeCallback` of `./callbacks`,
"removeCallback(endpoint, key, waiter?) - removes one waiter if given, else
all waiters under key" (section 6). -/
def removeCallback (reg : Registry) (key : JsVal) (waiter : Option Waiter) : Registry :=
  match key with
  | .str k =>
    match waiter with
    | none => Function.update reg k []
    | some w => Function.update reg k ((reg k).erase w)
  | _ => reg

/-! ## `parseMessageData` (lines 13-19) -/

/-- The function `parseMessageData(data)`: a string is given to `JSON.parse`, whose
exception is not caught; any other value is returned as it is. -/
def parseMessageData (jsonParse : String → Option JsVal) (data : JsVal) : Except JsExn JsVal :=
  match data with
  | .str s =>
    match jsonParse s with
    | some v => .ok v
    | none => .error .syntaxError
  | v => .ok v

/-! ## `processData` (lines 60-102) -/

/-- What a run of `processData` leaves behind: the registry, the calls made
on waiters in order, and the exception that left the function, if any. -/
structure Outcome where
  reg : Registry
  trace : List Call
  raised : Option JsExn

/-- Lines 70-71: `new Error(data.data.message)` and `error.name =
data.data.name`. `new Error(m)` sets `message` to `ToString(m)` unless `m` is
`undefined`, when the inherited empty message shows. -/
def makeError (dd : JsVal) : Except JsExn JsError :=
  match getProp dd "message" with
  | .error e => .error e
  | .ok m =>
    match (match m with
           | .undefined => some ""
           | w => toStr w) with
    | none => .error .typeError
    | some message =>
      match getProp dd "name" with
      | .error e => .error e
      | .ok name => .ok ⟨name, message⟩

/-- Lines 69-75: the loop over `promises`. Each turn builds the error, calls
`promise.reject(error)` (a `TypeError` when the waiter is a function, which
has no `reject`) and then removes that waiter from the key. Nothing catches
an exception here: it ends the loop and leaves `processData`. -/
def rejectLoop (dd key : JsVal) : List Waiter → Registry → Outcome
  | [], reg => ⟨reg, [], none⟩
  | promise :: rest, reg =>
    match makeError dd with
    | .error e => ⟨reg, [], some e⟩
    | .ok error =>
      match promise with
      | .callback _ _ => ⟨reg, [], some .typeError⟩
      | .handle id _ rejectThrows =>
        if rejectThrows then
          ⟨reg, [.rejected promise error], some (.thrown id)⟩
        else
          let out := rejectLoop dd key rest (removeCallback reg key (some promise))
          ⟨out.reg, .rejected promise error :: out.trace, out.raised⟩

/-- Lines 67-75: `promises = getCallbacks(player, data.data.method)` and the
loop over them. -/
def rejectPending (reg : Registry) (data : JsVal) : Outcome :=
  match getProp data "data" with
  | .error e => ⟨reg, [], some e⟩
  | .ok dd =>
    match getProp dd "method" with
    | .error e => ⟨reg, [], some e⟩
    | .ok key => rejectLoop dd key (getCallbacks reg key) reg

/-- Lines 91-96, the body of the `try`: a function is called with `param`,
any other waiter has its `resolve` called with `param`. The second
component is the exception the call raises. -/
def invoke (callback : Waiter) (param : JsVal) : Call × Option JsExn :=
  match callback with
  | .callback id throws => (.called callback param, if throws then some (.thrown id) else none)
  | .handle id resolveThrows _ =>
    (.resolved callback param, if resolveThrows then some (.thrown id) else none)

/-- Lines 89-101: the loop over `callbacks`. The `catch` block is empty, so
the exception of a turn is dropped and the loop goes on. -/
def deliver : List Waiter → JsVal → Outcome → Outcome
  | [], _, out => out
  | callback :: rest, param, out =>
    match invoke callback param with
    | (call, _) => deliver rest param ⟨out.reg, out.trace ++ [call], out.raised⟩

/-- Line 66: `data.event === 'error'`. -/
def isErrorEvent : JsVal → Bool
  | .str s => s == "error"
  | _ => false

/-- Lines 62-101 of `processData`, on the decoded message `data`. -/
def dispatch (reg : Registry) (data : JsVal) : Outcome :=
  match getProp data "event" with
  | .error e => ⟨reg, [], some e⟩
  | .ok event =>
    if truthy event then
      let rej : Outcome := if isErrorEvent event then rejectPending reg data else ⟨reg, [], none⟩
      match rej.raised with
      | some _ => rej
      | none =>
        match toStr event with
        | none => ⟨rej.reg, rej.trace, some .typeError⟩
        | some name =>
          match getProp data "data" with
          | .error e => ⟨rej.reg, rej.trace, some e⟩
          | .ok param => deliver (getCallbacks rej.reg (.str ("event:" ++ name))) param rej
    else
      match getProp data "method" with
      | .error e => ⟨reg, [], some e⟩
      | .ok method =>
        if truthy method then
          match getProp data "value" with
          | .error e => ⟨reg, [], some e⟩
          | .ok param =>
            deliver (getCallbacks reg method) param ⟨removeCallback reg method none, [], none⟩
        else
          deliver [] .undefined ⟨reg, [], none⟩

/-- The function `processData(player, data)`, the registry of the player being `reg`:
line 61 decodes the message, whose exception is not caught, and the rest of
the function routes the decoded message. -/
def processData (jsonParse : String → Option JsVal) (reg : Registry) (raw : JsVal) : Outcome :=
  match parseMessageData jsonParse raw with
  | .error e => ⟨reg, [], some e⟩
  | .ok data => dispatch reg data

/-- Feed a sequence of inbound messages to `processData`, one after another,
with no registration in between. Each message is its own call of
`processData` (one per `message` event of the window), so an exception that
leaves one call does not stop the next. The result is the final registry
and all the calls made, in order. -/
def processAll (jsonParse : String → Option JsVal) : List JsVal → Registry → Registry × List Call
  | [], reg => (reg, [])
  | raw :: rest, reg =>
    let out := processData jsonParse reg raw
    let later := processAll jsonParse rest out.reg
    (later.1, out.trace ++ later.2)

/-! ## Inbound messages of the protocol -/

/-- The call reply `{method: M, value: v}`. -/
def callReply (method : String) (value : JsVal) : JsVal :=
  .obj [("method", .str method), ("value", value)]

/-- The event notification `{event: E, data: d}`. -/
def eventMessage (event : String) (data : JsVal) : JsVal :=
  .obj [("event", .str event), ("data", data)]

/-- The error event `{event: "error", data: {method: M, name: n, message: m}}`. -/
def errorEvent (method name message : String) : JsVal :=
  eventMessage "error" (.obj [("method", .str method), ("name", .str name), ("message", .str message)])

/-- Whether the value is an object with an own property of that name. -/
def hasField (v : JsVal) (name : String) : Bool :=
  match v with
  | .obj fields => (fields.lookup name).isSome
  | _ => false

/-- The call the delivery loop makes on a waiter (first component of `invoke`). -/
def callOf (param : JsVal) (w : Waiter) : Call := (invoke w param).1

/-- The waiter a call is made on. -/
def Call.waiter : Call → Waiter
  | .called w _ => w
  | .resolved w _ => w
  | .rejected w _ => w

/-! ## `JSON.stringify` and the reading of JSON texts -/

/-- The double quote. -/
def quote : Char := Char.ofNat 34

/-- The backslash. -/
def backslash : Char := Char.ofNat 92

/-- The lower-case hexadecimal digit of a number below 16. -/
def hexDigit (n : Nat) : Char := Char.ofNat (if n < 10 then 48 + n else 87 + n)

/-- The escape `\u` followed by the four hexadecimal digits of the character. -/
def unicodeEscape (c : Char) : List Char :=
  [backslash, 'u', hexDigit (c.toNat / 4096 % 16), hexDigit (c.toNat / 256 % 16),
    hexDigit (c.toNat / 16 % 16), hexDigit (c.toNat % 16)]

/-- The text `QuoteJSONString` (the quoting that `JSON.stringify` applies to
strings and property names) writes for one character: the two-character
escapes of backspace, tab, line feed, form feed, carriage return, the double
quote and the backslash, `unicodeEscape` for the other characters below
U+0020, and the character itself otherwise. -/
def quoteChar (c : Char) : List Char :=
  if c.toNat = 8 then [backslash, 'b']
  else if c.toNat = 9 then [backslash, 't']
  else if c.toNat = 10 then [backslash, 'n']
  else if c.toNat = 12 then [backslash, 'f']
  else if c.toNat = 13 then [backslash, 'r']
  else if c.toNat = 34 then [backslash, quote]
  else if c.toNat = 92 then [backslash, backslash]
  else if c.toNat < 32 then unicodeEscape c
  else [c]

/-- The operation `QuoteJSONString`: the string between double quotes, each
character escaped. -/
def quoteJSONString (s : String) : List Char :=
  quote :: (s.data.flatMap quoteChar ++ [quote])

/-- The text `JSON.stringify` writes for a number: `Number::toString` for a
finite number, `null` for `NaN` and the infinities. -/
def jsonNumber : JsNum → List Char
  | .nan => ['n', 'u', 'l', 'l']
  | .infinity => ['n', 'u', 'l', 'l']
  | .negInfinity => ['n', 'u', 'l', 'l']
  | n => (numberText n).data

/-- The texts joined by commas. -/
def joinComma : List (List Char) → List Char
  | [] => []
  | [t] => t
  | t :: u :: rest => t ++ ',' :: joinComma (u :: rest)

mutual
/-- The operation `SerializeJSONProperty` of `JSON.stringify`, without
indentation; `none` is its `undefined` result. -/
def serializeJSONProperty : JsVal → Option (List Char)
  | .undefined => none
  | .null => some ['n', 'u', 'l', 'l']
  | .bool b => some (if b then ['t', 'r', 'u', 'e'] else ['f', 'a', 'l', 's', 'e'])
  | .num n => some (jsonNumber n)
  | .str s => some (quoteJSONString s)
  | .arr items => some ('[' :: (joinComma (serializeItems items) ++ [']']))
  | .obj fields => some (Char.ofNat 123 :: (joinComma (serializeMembers fields) ++ [Char.ofNat 125]))
/-- The texts of the items of an array: an `undefined` item is written `null`. -/
def serializeItems : List JsVal → List (List Char)
  | [] => []
  | v :: rest =>
    (match serializeJSONProperty v with
     | some t => t
     | none => ['n', 'u', 'l', 'l']) :: serializeItems rest
/-- The texts of the properties of an object: a property whose value is
`undefined` is left out. -/
def serializeMembers : List (String × JsVal) → List (List Char)
  | [] => []
  | (k, v) :: rest =>
    match serializeJSONProperty v with
    | some t => (quoteJSONString k ++ ':' :: t) :: serializeMembers rest
    | none => serializeMembers rest
end

/-- The built-in `JSON.stringify(v)`, without indentation; `none` is its
`undefined` result. -/
def jsonStringify (v : JsVal) : Option String :=
  (serializeJSONProperty v).map String.mk

/-- The value of a hexadecimal digit. -/
def hexValue (c : Char) : Option Nat :=
  if 48 ≤ c.toNat ∧ c.toNat ≤ 57 then some (c.toNat - 48)
  else if 97 ≤ c.toNat ∧ c.toNat ≤ 102 then some (c.toNat - 87)
  else if 65 ≤ c.toNat ∧ c.toNat ≤ 70 then some (c.toNat - 55)
  else none

/-- The character a two-character escape of a JSON string stands for. -/
def unescape (e : Char) : Option Char :=
  if e = quote then some quote
  else if e = backslash then some backslash
  else if e = '/' then some '/'
  else if e = 'b' then some (Char.ofNat 8)
  else if e = 'f' then some (Char.ofNat 12)
  else if e = 'n' then some (Char.ofNat 10)
  else if e = 'r' then some (Char.ofNat 13)
  else if e = 't' then some (Char.ofNat 9)
  else none

/-- Read a JSON string after its opening quote, up to and with the closing
quote: the characters of the string, and the text that follows. A raw
character below U+0020 is refused, as the JSON grammar does; so is a `\u`
escape of a surrogate, which no character of this embedding stands for. -/
def decodeString : List Char → Option (List Char × List Char)
  | [] => none
  | c :: rest =>
    if c = quote then some ([], rest)
    else if c = backslash then
      match rest with
      | [] => none
      | e :: rest1 =>
        if e = 'u' then
          match rest1 with
          | h1 :: h2 :: h3 :: h4 :: rest2 =>
            match hexValue h1, hexValue h2, hexValue h3, hexValue h4 with
            | some a, some b, some c, some d =>
              let code := 4096 * a + 256 * b + 16 * c + d
              if 55296 ≤ code ∧ code ≤ 57343 then none
              else
                match decodeString rest2 with
                | some (cs, r) => some (Char.ofNat code :: cs, r)
                | none => none
            | _, _, _, _ => none
          | _ => none
        else
          match unescape e with
          | none => none
          | some ch =>
            match decodeString rest1 with
            | some (cs, r) => some (ch :: cs, r)
            | none => none
    else if c.toNat < 32 then none
    else
      match decodeString rest with
      | some (cs, r) => some (c :: cs, r)
      | none => none

/-- The characters a JSON number is written with. -/
def isNumberChar (c : Char) : Bool :=
  c.isDigit || c == '-' || c == '+' || c == '.' || c == 'e' || c == 'E'

/-- The number a run of decimal digits denotes. -/
def digitsValue (digits : List Char) : Nat :=
  digits.foldl (fun acc c => 10 * acc + (c.toNat - 48)) 0

/-- Whether the token is the decimal writing of an integer of magnitude at
most 2^53, with no leading zero and other than `-0`: a double holds such an
integer exactly and `Number::toString` prints it with the same digits. -/
def isSafeInteger (token : List Char) : Bool :=
  match token with
  | [] => false
  | '-' :: digits =>
    !digits.isEmpty && digits.all Char.isDigit && digits.head? != some '0' &&
      decide (digitsValue digits ≤ 9007199254740992)
  | digits =>
    digits.all Char.isDigit && (digits.head? != some '0' || digits.length == 1) &&
      decide (digitsValue digits ≤ 9007199254740992)

/-- Read a JSON number: the token is the longest run of number characters (in
a JSON text a number is never followed by one). A safe integer is read
exactly; any other token is handed to `readNumber`, the conversion of the
platform from a JSON number token to a double (`none` when the token is not
a JSON number), which is floating-point arithmetic and a parameter here. -/
def decodeNumber (readNumber : String → Option JsNum) (cs : List Char) :
    Option (JsNum × List Char) :=
  let token := cs.takeWhile isNumberChar
  let rest := cs.dropWhile isNumberChar
  if isSafeInteger token then some (.finite (String.mk token), rest)
  else
    match readNumber (String.mk token) with
    | some n => some (n, rest)
    | none => none

/-- Strip the expected characters off the front of the text. -/
def expectChars : List Char → List Char → Option (List Char)
  | [], cs => some cs
  | _ :: _, [] => none
  | e :: es, c :: cs => if e = c then expectChars es cs else none

/-- Whether no string occurs twice. -/
def allDistinct : List String → Bool
  | [] => true
  | k :: ks => !ks.contains k && allDistinct ks

/-- Whether a property name is written with digits only. -/
def isDigitsOnly (k : String) : Bool :=
  !k.data.isEmpty && k.data.all Char.isDigit

/-- Whether a property name is an array index: the decimal writing, with no
leading zero, of an integer up to 2^32 - 2. -/
def isArrayIndex (k : String) : Bool :=
  isDigitsOnly k && (k.data.head? != some '0' || k.data.length == 1) &&
    decide (digitsValue k.data ≤ 4294967294)

/-- Whether the numbers strictly increase. -/
def increasing : List Nat → Bool
  | [] => true
  | [_] => true
  | a :: b :: rest => decide (a < b) && increasing (b :: rest)

/-- Whether the property names, in the order of the text, are the names of
the object in the order JavaScript keeps them: they are distinct, the array
indices come first and increase, and no other name is written with digits
only (a repeated name would overwrite, and an index would move to the
front). -/
def keysInOrder (keys : List String) : Bool :=
  allDistinct keys &&
    (keys.dropWhile isArrayIndex).all (fun k => !isDigitsOnly k) &&
    increasing ((keys.takeWhile isArrayIndex).map (fun k => digitsValue k.data))

/-- Read a JSON value that holds no other value, off the front of a text whose
first character is `c`: one of the literals `null`, `true` and `false`, a
string, or a number. -/
def decodeScalar (readNumber : String → Option JsNum) (c : Char) (cs : List Char) :
    Option (JsVal × List Char) :=
  if c = 'n' then
    match expectChars ['u', 'l', 'l'] cs with
    | some rest => some (.null, rest)
    | none => none
  else if c = 't' then
    match expectChars ['r', 'u', 'e'] cs with
    | some rest => some (.bool true, rest)
    | none => none
  else if c = 'f' then
    match expectChars ['a', 'l', 's', 'e'] cs with
    | some rest => some (.bool false, rest)
    | none => none
  else if c = quote then
    match decodeString cs with
    | some (chars, rest) => some (.str (String.mk chars), rest)
    | none => none
  else if c = '-' ∨ c.isDigit = true then
    match decodeNumber readNumber (c :: cs) with
    | some (n, rest) => some (.num n, rest)
    | none => none
  else none

/-- The object read from its members, when their names are in order. -/
def closeObject (members : Option (List (String × JsVal) × List Char)) :
    Option (JsVal × List Char) :=
  match members with
  | some (fields, rest) =>
    if keysInOrder (fields.map Prod.fst) then some (.obj fields, rest) else none
  | none => none

/-- The array read from its items. -/
def closeArray (items : Option (List JsVal × List Char)) : Option (JsVal × List Char) :=
  match items with
  | some (vs, rest) => some (.arr vs, rest)
  | none => none

/-- What follows a value inside an array or an object: a comma, then `more`
reads the values that remain, or the closing character `close`. -/
def afterValue {α : Type} (close : Char) (v : α) (text : List Char)
    (more : List Char → Option (List α × List Char)) : Option (List α × List Char) :=
  match text with
  | [] => none
  | c :: rest =>
    if c = ',' then
      match more rest with
      | some (vs, rest1) => some (v :: vs, rest1)
      | none => none
    else if c = close then some ([v], rest)
    else none

mutual
/-- Read one JSON value off the front of a text with no white space: the
value, and the text that follows. The first argument bounds the depth of the
recursion. -/
def decodeValue (readNumber : String → Option JsNum) : Nat → List Char →
    Option (JsVal × List Char)
  | 0, _ => none
  | _ + 1, [] => none
  | fuel + 1, c :: cs =>
    if c = '[' then
      if cs.head? = some ']' then some (.arr [], cs.tail)
      else closeArray (decodeItems readNumber fuel cs)
    else if c = Char.ofNat 123 then
      if cs.head? = some (Char.ofNat 125) then some (.obj [], cs.tail)
      else closeObject (decodeMembers readNumber fuel cs)
    else decodeScalar readNumber c cs
/-- Read the items of an array, separated by commas, up to and with the
closing bracket. -/
def decodeItems (readNumber : String → Option JsNum) : Nat → List Char →
    Option (List JsVal × List Char)
  | 0, _ => none
  | fuel + 1, cs =>
    match decodeValue readNumber fuel cs with
    | some (v, text) => afterValue ']' v text (decodeItems readNumber fuel)
    | none => none
/-- Read the members of an object, separated by commas, up to and with the
closing brace: each is a name, a colon and a value. -/
def decodeMembers (readNumber : String → Option JsNum) : Nat → List Char →
    Option (List (String × JsVal) × List Char)
  | 0, _ => none
  | fuel + 1, cs =>
    if cs.head? = some quote then
      match decodeString cs.tail with
      | some (key, text) =>
        if text.head? = some ':' then
          match decodeValue readNumber fuel text.tail with
          | some (v, text1) =>
            afterValue (Char.ofNat 125) (String.mk key, v) text1 (decodeMembers readNumber fuel)
          | none => none
        else none
      | none => none
    else none
end

/-- A reader of compact JSON texts: no white space between the tokens, the
property names of every object in the order JavaScript keeps them, no
escaped surrogate; `none` when the text is not one of these. Every text it
reads, it reads as `JSON.parse` does. -/
def jsonDecode (readNumber : String → Option JsNum) (text : String) : Option JsVal :=
  match decodeValue readNumber (text.length + 1) text.data with
  | some (v, []) => some v
  | _ => none

/-- Whether `JSON.stringify` writes the number as a text that reads back as the
same number: the number is finite and not the negative zero, and its text is
a safe integer or a token that `readNumber` reads back as this number. -/
def numberSafe (readNumber : String → Option JsNum) : JsNum → Bool
  | .finite text =>
    !text.data.isEmpty && text.data.all isNumberChar &&
      (text.data.head? == some '-' || (text.data.head?.map Char.isDigit) == some true) &&
      (isSafeInteger text.data || readNumber text == some (.finite text))
  | _ => false

mutual
/-- The values that a JSON text holds as they are: no `undefined`, no `NaN`, no
infinity and no negative zero anywhere inside, every number with a text that
reads back as itself, and the properties of every object listed in the
order JavaScript keeps them. -/
def jsonSafe (readNumber : String → Option JsNum) : JsVal → Bool
  | .undefined => false
  | .null => true
  | .bool _ => true
  | .num n => numberSafe readNumber n
  | .str _ => true
  | .arr items => itemsSafe readNumber items
  | .obj fields => keysInOrder (fields.map Prod.fst) && membersSafe readNumber fields
/-- Whether every item is `jsonSafe`. -/
def itemsSafe (readNumber : String → Option JsNum) : List JsVal → Bool
  | [] => true
  | v :: rest => jsonSafe readNumber v && itemsSafe readNumber rest
/-- Whether the value of every property is `jsonSafe`. -/
def membersSafe (readNumber : String → Option JsNum) : List (String × JsVal) → Bool
  | [] => true
  | (_, v) :: rest => jsonSafe readNumber v && membersSafe readNumber rest
end

/-! ## `postMessage` (lines 30-50) -/

/-- The target window `player.element.contentWindow`: all that `postMessage`
reads of it is whether its `postMessage` property is truthy. -/
structure Window where
  hasPostMessage : Bool
  deriving DecidableEq, Repr

/-- The player: `contentWindow` is `none` when `player.element.contentWindow`
is `null` (the frame is not in a document), and `origin` is `player.origin`. -/
structure Player where
  contentWindow : Option Window
  origin : String
  deriving DecidableEq, Repr

/-- What a call of `postMessage` does: it raises, returns without a
delivery, or calls `contentWindow.postMessage(message, targetOrigin)` once. -/
inductive PostOutcome where
  | raised (e : JsExn)
  | dropped
  | delivered (message : JsVal) (targetOrigin : String)

/-- Line 45: `ieVersion >= 8 && ieVersion < 10`, for the number that line 44
reads off `navigator.userAgent`: `none` is `NaN`, for which both comparisons
are false (an infinite value compares as any number from 10 on does). -/
def stringifies (ieVersion : Option ℚ) : Bool :=
  match ieVersion with
  | some v => decide (8 ≤ v) && decide (v < 10)
  | none => false

/-- The test `params === undefined` that line 39 negates. -/
def isUndefined : JsVal → Bool
  | .undefined => true
  | _ => false

/-- Lines 35-41: the message object with the property `method`, and with
`value: params` added when `params !== undefined`. -/
def buildMessage (method : String) (params : JsVal) : JsVal :=
  .obj (("method", .str method) :: (if isUndefined params then [] else [("value", params)]))

/-- The function `postMessage(player, method, params)`, with the number of line 44 as
`ieVersion`. -/
def postMessage (player : Player) (ieVersion : Option ℚ) (method : String) (params : JsVal) :
    PostOutcome :=
  match player.contentWindow with
  | none => .raised .typeError
  | some target =>
    if !target.hasPostMessage then .dropped
    else
      let message := buildMessage method params
      let message :=
        if stringifies ieVersion then
          match jsonStringify message with
          | some text => .str text
          | none => .undefined
        else message
      .delivered message player.origin

/-! ## Sample inputs -/

/-- A `JSON.parse` that accepts no text: for runs on structured messages. -/
def noParse : String → Option JsVal := fun _ => none

/-- Two pending handles under `getDuration`, as in the example of the spec. -/
def pendingDuration : Registry :=
  fun k => if k = "getDuration" then [.handle 1 false false, .handle 2 false false] else []

/-- One handle registered under the empty key. -/
def pendingEmptyKey : Registry :=
  fun k => if k = "" then [.handle 1 false false] else []

/-- Two pending handles under `getDuration`; the `reject` of the first raises. -/
def pendingThrowingReject : Registry :=
  fun k => if k = "getDuration" then [.handle 1 false true, .handle 2 false false] else []

/-- Two subscribers of the event `play`; the body of the first raises. -/
def subscribersPlay : Registry :=
  fun k => if k = "event:play" then [.callback 3 true, .callback 4 false] else []

/-- One subscriber under the key `event:`, the key of the empty event name. -/
def subscribersEmptyEvent : Registry :=
  fun k => if k = "event:" then [.callback 5 false] else []

/-- One subscriber of the event `error`. -/
def subscribersError : Registry :=
  fun k => if k = "event:error" then [.callback 6 false] else []

/-- The text of a `play` event, as the example of the spec has it (with a
whole number of seconds). -/
def playText : String := "\x7b\"event\":\"play\",\"data\":\x7b\"seconds\":1\x7d\x7d"

/-- A `JSON.parse` that knows the text `playText` only. -/
def parsePlay : String → Option JsVal :=
  fun s => if s = playText then some (eventMessage "play" (.obj [("seconds", .num (.finite "1"))])) else none

/-- The registry with no waiter. -/
def emptyRegistry : Registry := fun _ => []

/-- A `JSON.parse` that knows the text `null` only. -/
def parseNull : String → Option JsVal :=
  fun s => if s = "null" then some .null else none

/-- A player whose frame has a window with `postMessage`. -/
def readyPlayer : Player := ⟨some ⟨true⟩, "https://player.vimeo.com"⟩

/-- The JSON text of the message with method `setColor` and value `[null]`. -/
def setColorText : String := "\x7b\"method\":\"setColor\",\"value\":[null]\x7d"

/-- A conversion of number tokens that knows the token `1.5` only. -/
def readOneAndAHalf : String → Option JsNum :=
  fun token => if token = "1.5" then some (.finite "1.5") else none

/-- Parameters that exercise the writing of JSON: a string with a quote, a
backslash, a line feed and the character U+0001, a fraction, a safe
integer, `null`, an empty array, and an object with an index name, a
boolean and a nested array. -/
def sampleParams : JsVal :=
  .arr [.str "a\"b\\c\nd\x01", .num (.finite "1.5"), .num (.finite "-83"), .null, .arr [],
    .obj [("0", .bool true), ("k", .arr [.bool false, .str ""])]]

/-- The JSON text of the message with method `setColor` and value `sampleParams`. -/
def sampleText : String :=
  "\x7b\"method\":\"setColor\",\"value\":[\"a\\\"b\\\\c\\nd\\u0001\",1.5,-83,null,[]," ++
    "\x7b\"0\":true,\"k\":[false,\"\"]\x7d]\x7d"

/-- One handle pending under `getDuration`, whose `reject` raises. -/
def pendingOneThrowingReject : Registry :=
  fun k => if k = "getDuration" then [.handle 1 false true] else []

/-- A player whose frame has no window: `player.element.contentWindow` is
`null`, as for a frame that is not in a document. -/
def detachedPlayer : Player := ⟨none, "https://player.vimeo.com"⟩

/-- A player whose window has no `postMessage` (yet). -/
def unreadyPlayer : Player := ⟨some ⟨false⟩, "https://player.vimeo.com"⟩

/-- A function and a handle pending under `getDuration`: the function, first
in the list, has no `reject`. -/
def pendingFunctionFirst : Registry :=
  fun k => if k = "getDuration" then [.callback 7 false, .handle 2 false false] else []

/-- A message with the properties `event: ""`, `method: "getDuration"` and
`value: 83`: its `event` property is present and falsy. -/
def emptyEventReply : JsVal :=
  .obj [("event", .str ""), ("method", .str "getDuration"), ("value", .num (.finite "83"))]

/-- Handles pending under `getDuration` and under `getVolume`. -/
def pendingTwoMethods : Registry :=
  fun k => if k = "getDuration" then [.handle 1 false false]
    else if k = "getVolume" then [.handle 2 false false, .handle 3 false false] else []

/-- A message with the properties `event: "play"`, `data: 1`, `method:
"getDuration"` and `value: 83`: an event that also names a method. -/
def playEventWithMethod : JsVal :=
  .obj [("event", .str "play"), ("data", .num (.finite "1")), ("method", .str "getDuration"),
    ("value", .num (.finite "83"))]

/-- One subscriber of `play` and one handle pending under `getDuration`. -/
def subscriberAndPending : Registry :=
  fun k => if k = "event:play" then [.callback 4 false]
    else if k = "getDuration" then [.handle 1 false false] else []

/-- One subscriber of the event whose name is the number 10^21, which
`Number::toString` prints as `1e+21`. -/
def subscribersLargeNumber : Registry :=
  fun k => if k = "event:1e+21" then [.callback 8 false] else []

/-! ## Lemmas on the two loops -/

theorem deliver_eq (ws : List Waiter) (v : JsVal) (out : Outcome) :
    deliver ws v out = ⟨out.reg, out.trace ++ ws.map (callOf v), out.raised⟩ := by
  induction ws generalizing out with
  | nil => simp [deliver]
  | cons w rest ih => simp [deliver, ih, callOf]

theorem foldl_erase_self (l : List Waiter) : l.foldl List.erase l = [] := by
  induction l with
  | nil => rfl
  | cons a t ih => simpa using ih

/-- The rejection loop touches the registry at its own key only. -/
theorem rejectLoop_reg_other (dd key : JsVal) (k : String) (hk : key ≠ .str k)
    (ws : List Waiter) (reg : Registry) : (rejectLoop dd key ws reg).reg k = reg k := by
  induction ws generalizing reg with
  | nil => rfl
  | cons p rest ih =>
    unfold rejectLoop
    cases makeError dd with
    | error e => rfl
    | ok err =>
      cases p with
      | callback id t => rfl
      | handle id r j =>
        cases j with
        | true => rfl
        | false =>
          simp only [Bool.false_eq_true, if_false]
          rw [ih]
          unfold removeCallback
          cases key with
          | str s =>
            have : k ≠ s := fun h => hk (by rw [h])
            simp [Function.update, this]
          | _ => rfl

/-- When every waiter of the list is a handle whose `reject` returns, the
rejection loop rejects all of them in order and erases each from the key. -/
theorem rejectLoop_all (dd : JsVal) (M : String) (err : JsError) (herr : makeError dd = .ok err)
    (ws : List Waiter) (reg : Registry)
    (hws : ∀ w ∈ ws, ∃ id r, w = .handle id r false) :
    rejectLoop dd (.str M) ws reg =
      ⟨Function.update reg M (ws.foldl List.erase (reg M)), ws.map (fun w => .rejected w err), none⟩ := by
  induction ws generalizing reg with
  | nil => simp [rejectLoop]
  | cons p rest ih =>
    obtain ⟨id, r, rfl⟩ := hws p (List.mem_cons_self _ _)
    have hrest : ∀ w ∈ rest, ∃ id r, w = .handle id r false :=
      fun w hw => hws w (List.mem_cons_of_mem _ hw)
    unfold rejectLoop
    simp only [herr, Bool.false_eq_true, if_false]
    rw [ih _ hrest]
    simp [removeCallback]

theorem dispatch_callReply (reg : Registry) (M : String) (v : JsVal) (hM : M ≠ "") :
    dispatch reg (callReply M v) =
      ⟨Function.update reg M [], (reg M).map (callOf v), none⟩ := by
  simp [dispatch, callReply, getProp, List.lookup, truthy, hM, deliver_eq, getCallbacks,
    removeCallback]

theorem dispatch_callReply_empty (reg : Registry) (v : JsVal) :
    dispatch reg (callReply "" v) = ⟨reg, [], none⟩ := by
  simp [dispatch, callReply, getProp, List.lookup, truthy, deliver]

theorem processData_decoded (jsonParse : String → Option JsVal) (reg : Registry) (raw data : JsVal)
    (hraw : parseMessageData jsonParse raw = .ok data) :
    processData jsonParse reg raw = dispatch reg data := by
  simp [processData, hraw]

theorem makeError_errorPayload (M n m : String) :
    makeError (.obj [("method", .str M), ("name", .str n), ("message", .str m)]) =
      .ok ⟨.str n, m⟩ := by
  simp [makeError, getProp, List.lookup, toStr]

theorem dispatch_errorEvent (reg : Registry) (M n m : String)
    (hws : ∀ w ∈ reg M, ∃ id r, w = .handle id r false) :
    dispatch reg (errorEvent M n m) =
      ⟨Function.update reg M [],
        (reg M).map (fun w => .rejected w ⟨.str n, m⟩) ++
          (Function.update reg M [] "event:error").map
            (callOf (.obj [("method", .str M), ("name", .str n), ("message", .str m)])),
        none⟩ := by
  have h := rejectLoop_all _ M _ (makeError_errorPayload M n m) (reg M) reg hws
  simp [dispatch, errorEvent, eventMessage, getProp, List.lookup, truthy, isErrorEvent,
    rejectPending, getCallbacks, h, foldl_erase_self, toStr, deliver_eq]

/-! ## C1: a call reply resolves every waiter of its method and evicts them -/

/-- C1 (as amended): for every registry, every non-empty method name `M` and
every value `v`, routing a message that decodes to the call reply
`{method: M, value: v}` invokes every waiter registered under `M` at the
moment of the call with `v`, in order (a function is called, a handle is
resolved), leaves no waiter under `M`, and raises nothing. -/
theorem callReply_resolves_all_and_evicts (jsonParse : String → Option JsVal) (reg : Registry)
    (raw : JsVal) (M : String) (v : JsVal)
    (hraw : parseMessageData jsonParse raw = .ok (callReply M v)) (hM : M ≠ "") :
    (processData jsonParse reg raw).trace = (getCallbacks reg (.str M)).map (callOf v) ∧
    getCallbacks (processData jsonParse reg raw).reg (.str M) = [] ∧
    (processData jsonParse reg raw).raised = none := by
  rw [processData_decoded jsonParse reg raw _ hraw, dispatch_callReply reg M v hM]
  simp [getCallbacks]

/-- C1, witness: the example of the spec, `{method: "getDuration", value: 83}`
with two pending waiters. -/
theorem callReply_resolves_all_and_evicts_witness :
    parseMessageData noParse (callReply "getDuration" (.num (.finite "83"))) =
        .ok (callReply "getDuration" (.num (.finite "83"))) ∧
      "getDuration" ≠ "" ∧
      (processData noParse pendingDuration (callReply "getDuration" (.num (.finite "83")))).trace =
        (getCallbacks pendingDuration (.str "getDuration")).map (callOf (.num (.finite "83"))) ∧
      getCallbacks (processData noParse pendingDuration (callReply "getDuration" (.num (.finite "83")))).reg
        (.str "getDuration") = [] ∧
      (processData noParse pendingDuration (callReply "getDuration" (.num (.finite "83")))).raised = none :=
  ⟨rfl, by decide,
    callReply_resolves_all_and_evicts noParse pendingDuration _ "getDuration" (.num (.finite "83")) rfl
      (by decide)⟩

/-- C1, counterexample: the reply `{method: "", value: 83}` fails the guard
`else if (data.method)` of line 81, so the waiter registered under the empty
key is not invoked and is still registered afterwards. -/
theorem callReply_empty_method_is_ignored :
    (processData noParse pendingEmptyKey (callReply "" (.num (.finite "83")))).trace = [] ∧
      getCallbacks pendingEmptyKey (.str "") = [.handle 1 false false] ∧
      getCallbacks (processData noParse pendingEmptyKey (callReply "" (.num (.finite "83")))).reg (.str "") =
        [.handle 1 false false] := by
  refine ⟨rfl, by decide, by decide⟩

/-! ## C2: an error event rejects the pending waiters of its method -/

/-- When every waiter pending under `M` is a handle whose `reject` returns, an
error event for `M` rejects each of them, in order, with an error of the
name and message of the event, removes them all, leaves every other key as
it was, then notifies the subscribers of `event:error`, and raises nothing. -/
theorem errorEvent_rejects_pending (jsonParse : String → Option JsVal) (reg : Registry)
    (raw : JsVal) (M n m : String)
    (hraw : parseMessageData jsonParse raw = .ok (errorEvent M n m))
    (hws : ∀ w ∈ reg M, ∃ id r, w = .handle id r false) :
    (processData jsonParse reg raw).trace =
        (reg M).map (fun w => .rejected w ⟨.str n, m⟩) ++
          (Function.update reg M [] "event:error").map
            (callOf (.obj [("method", .str M), ("name", .str n), ("message", .str m)])) ∧
      (processData jsonParse reg raw).reg = Function.update reg M [] ∧
      (processData jsonParse reg raw).raised = none := by
  rw [processData_decoded jsonParse reg raw _ hraw, dispatch_errorEvent reg M n m hws]
  exact ⟨rfl, rfl, rfl⟩

/-- C2, at the failing input: two handles pending under `getDuration`, the
`reject` of the first raising. The error event rejects the first only; its
exception leaves `processData`, the second handle is never rejected and
both are still registered. -/
theorem errorEvent_stops_at_throwing_reject :
    (processData noParse pendingThrowingReject (errorEvent "getDuration" "TypeError" "boom")).trace =
        [.rejected (.handle 1 false true) ⟨.str "TypeError", "boom"⟩] ∧
      (processData noParse pendingThrowingReject (errorEvent "getDuration" "TypeError" "boom")).raised =
        some (.thrown 1) ∧
      (processData noParse pendingThrowingReject (errorEvent "getDuration" "TypeError" "boom")).reg
        "getDuration" = [.handle 1 false true, .handle 2 false false] := by
  refine ⟨rfl, by decide, by decide⟩

/-! ## C3: an event notifies its subscribers and removes none -/

theorem rejectLoop_trace_rejected (dd key : JsVal) (ws : List Waiter) (reg : Registry) :
    ∀ c ∈ (rejectLoop dd key ws reg).trace, ∃ w e, c = .rejected w e := by
  induction ws generalizing reg with
  | nil => simp [rejectLoop]
  | cons p rest ih =>
    unfold rejectLoop
    cases makeError dd with
    | error e => simp
    | ok err =>
      cases p with
      | callback id t => simp
      | handle id r j =>
        cases j with
        | true => simp
        | false =>
          simp only [Bool.false_eq_true, if_false, List.mem_cons]
          rintro c (rfl | hc)
          · exact ⟨_, _, rfl⟩
          · exact ih _ c hc

theorem rejectPending_trace_rejected (reg : Registry) (data : JsVal) :
    ∀ c ∈ (rejectPending reg data).trace, ∃ w e, c = .rejected w e := by
  unfold rejectPending
  cases getProp data "data" with
  | error e => simp
  | ok dd =>
    simp only
    cases getProp dd "method" with
    | error e => simp
    | ok key => exact rejectLoop_trace_rejected dd key _ reg

theorem rejectPending_reg_other (reg : Registry) (data dd : JsVal) (k : String)
    (hdd : getProp data "data" = .ok dd) (hk : getProp dd "method" ≠ .ok (.str k)) :
    (rejectPending reg data).reg k = reg k := by
  unfold rejectPending
  rw [hdd]
  simp only
  cases hm : getProp dd "method" with
  | error e => rfl
  | ok key =>
    have : key ≠ .str k := fun h => hk (by rw [hm, h])
    exact rejectLoop_reg_other dd key k this _ reg

theorem dispatch_eventMessage (reg : Registry) (E : String) (d : JsVal) (hE : E ≠ "")
    (herr : E ≠ "error") :
    dispatch reg (eventMessage E d) = ⟨reg, (reg ("event:" ++ E)).map (callOf d), none⟩ := by
  simp [dispatch, eventMessage, getProp, List.lookup, truthy, hE, isErrorEvent, herr, toStr,
    deliver_eq, getCallbacks]

theorem dispatch_errorMessage (reg : Registry) (d : JsVal)
    (hrej : (rejectPending reg (eventMessage "error" d)).raised = none) :
    dispatch reg (eventMessage "error" d) =
      ⟨(rejectPending reg (eventMessage "error" d)).reg,
        (rejectPending reg (eventMessage "error" d)).trace ++
          ((rejectPending reg (eventMessage "error" d)).reg "event:error").map (callOf d),
        none⟩ := by
  have h1 : getProp (eventMessage "error" d) "event" = .ok (.str "error") := by
    simp [eventMessage, getProp, List.lookup]
  have h2 : getProp (eventMessage "error" d) "data" = .ok d := by
    simp [eventMessage, getProp, List.lookup]
  unfold dispatch
  simp only [h1, h2, truthy, isErrorEvent, toStr, deliver_eq, getCallbacks]
  simp [hrej]

/-- C3 (as amended): for every registry, every non-empty event name `E` and
every payload `d`, routing a message that is the event notification
`{event: E, data: d}` or decodes to it invokes every waiter registered
under `"event:" + E` with `d`, in order, removes none of them and raises
nothing; when `E` is not `error` it makes no other call and leaves the whole
registry as it was. For `E = "error"` this holds when the rejection of the
waiters pending under `d.method` raises nothing and `d.method` is not the
key `event:error` itself; the calls made before are those rejections. -/
theorem eventMessage_notifies_subscribers (jsonParse : String → Option JsVal) (reg : Registry)
    (raw : JsVal) (E : String) (d : JsVal)
    (hraw : parseMessageData jsonParse raw = .ok (eventMessage E d)) (hE : E ≠ "")
    (herr : E = "error" →
      (rejectPending reg (eventMessage E d)).raised = none ∧
        getProp d "method" ≠ .ok (.str "event:error")) :
    (∃ rejections : List Call,
        (E ≠ "error" → rejections = []) ∧
        (∀ c ∈ rejections, ∃ w e, c = .rejected w e) ∧
        (processData jsonParse reg raw).trace =
          rejections ++ (getCallbacks reg (.str ("event:" ++ E))).map (callOf d)) ∧
      getCallbacks (processData jsonParse reg raw).reg (.str ("event:" ++ E)) =
        getCallbacks reg (.str ("event:" ++ E)) ∧
      (E ≠ "error" → (processData jsonParse reg raw).reg = reg) ∧
      (processData jsonParse reg raw).raised = none := by
  rw [processData_decoded jsonParse reg raw _ hraw]
  by_cases h : E = "error"
  · subst h
    obtain ⟨hrej, hkey⟩ := herr rfl
    have hd : getProp (eventMessage "error" d) "data" = .ok d := by
      simp [eventMessage, getProp, List.lookup]
    have hreg := rejectPending_reg_other reg (eventMessage "error" d) d "event:error" hd hkey
    rw [dispatch_errorMessage reg d hrej]
    refine ⟨⟨(rejectPending reg (eventMessage "error" d)).trace, fun h => absurd rfl h,
      rejectPending_trace_rejected reg _, ?_⟩, ?_, fun h => absurd rfl h, rfl⟩
    · simp [getCallbacks, hreg]
    · simp [getCallbacks, hreg]
  · rw [dispatch_eventMessage reg E d hE h]
    exact ⟨⟨[], fun _ => rfl, by simp, by simp [getCallbacks]⟩, rfl, fun _ => rfl, rfl⟩

/-- C3, witness: the example of the spec, a `play` event given as its JSON
text, with two subscribers of which the first raises. -/
theorem eventMessage_notifies_subscribers_witness :
    parseMessageData parsePlay (.str playText) =
        .ok (eventMessage "play" (.obj [("seconds", .num (.finite "1"))])) ∧
      "play" ≠ "" ∧
      (processData parsePlay subscribersPlay (.str playText)).trace =
        [.called (.callback 3 true) (.obj [("seconds", .num (.finite "1"))]),
          .called (.callback 4 false) (.obj [("seconds", .num (.finite "1"))])] ∧
      (processData parsePlay subscribersPlay (.str playText)).reg = subscribersPlay ∧
      (processData parsePlay subscribersPlay (.str playText)).raised = none := by
  have h := eventMessage_notifies_subscribers parsePlay subscribersPlay (.str playText) "play"
    (.obj [("seconds", .num (.finite "1"))]) (by simp [parseMessageData, parsePlay]) (by decide)
    (fun h => absurd h (by decide))
  obtain ⟨⟨rej, hnil, -, htrace⟩, -, hreg, hraised⟩ := h
  refine ⟨by simp [parseMessageData, parsePlay], by decide, ?_, hreg (by decide), hraised⟩
  rw [htrace, hnil (by decide)]
  rfl

/-- C3, counterexample: the event `{event: "", data: 1}` fails the guard
`if (data.event)` of line 65, so the subscriber under `event:` is not invoked;
and the event `{event: "error", data: null}` raises a `TypeError` on line 67
(`data.data.method`) before the subscriber of `event:error` is invoked. -/
theorem eventMessage_not_delivered :
    getCallbacks subscribersEmptyEvent (.str ("event:" ++ "")) = [.callback 5 false] ∧
      (processData noParse subscribersEmptyEvent (eventMessage "" (.num (.finite "1")))).trace = [] ∧
      getCallbacks subscribersError (.str ("event:" ++ "error")) = [.callback 6 false] ∧
      (processData noParse subscribersError (eventMessage "error" .null)).trace = [] ∧
      (processData noParse subscribersError (eventMessage "error" .null)).raised =
        some .typeError := by
  refine ⟨by decide, rfl, by decide, rfl, by decide⟩

/-! ## C4: which messages make `processData` raise -/

theorem getProp_ok_of_ok (data x : JsVal) (a b : String) (h : getProp data a = .ok x) :
    ∃ y, getProp data b = .ok y := by
  cases data <;> simp [getProp] at h ⊢

theorem dispatch_not_error_event (reg : Registry) (data event : JsVal)
    (hev : getProp data "event" = .ok event) (hne : isErrorEvent event = false)
    (hconv : truthy event = true → toStr event ≠ none) : (dispatch reg data).raised = none := by
  obtain ⟨d, hd⟩ := getProp_ok_of_ok data event "event" "data" hev
  obtain ⟨m, hm⟩ := getProp_ok_of_ok data event "event" "method" hev
  obtain ⟨v, hv⟩ := getProp_ok_of_ok data event "event" "value" hev
  unfold dispatch
  simp only [hev, hne, hd, hm, hv]
  by_cases ht : truthy event = true
  · obtain ⟨name, hname⟩ := Option.ne_none_iff_exists'.mp (hconv ht)
    simp [ht, hname, deliver_eq]
  · by_cases htm : truthy m = true <;> simp [ht, htm, deliver_eq]

theorem dispatch_error_event_no_pending (reg : Registry) (data event dd key : JsVal)
    (hev : getProp data "event" = .ok event) (herr : isErrorEvent event = true)
    (hdd : getProp data "data" = .ok dd) (hkey : getProp dd "method" = .ok key)
    (hnone : getCallbacks reg key = []) : (dispatch reg data).raised = none := by
  have hevent : event = .str "error" := by
    cases event <;> simp [isErrorEvent] at herr
    rw [herr]
  subst hevent
  unfold dispatch
  simp [hev, hdd, truthy, isErrorEvent, rejectPending, hkey, hnone, rejectLoop, toStr,
    deliver_eq]

theorem dispatch_error_event_no_data (reg : Registry) (data event dd : JsVal)
    (hev : getProp data "event" = .ok event) (herr : isErrorEvent event = true)
    (hdd : getProp data "data" = .ok dd) (hnull : dd = .null ∨ dd = .undefined) :
    dispatch reg data = ⟨reg, [], some .typeError⟩ := by
  have hevent : event = .str "error" := by
    cases event <;> simp [isErrorEvent] at herr
    rw [herr]
  subst hevent
  have hrej : rejectPending reg data = ⟨reg, [], some .typeError⟩ := by
    unfold rejectPending
    rw [hdd]
    rcases hnull with rfl | rfl <;> rfl
  unfold dispatch
  rw [hev]
  simp [truthy, isErrorEvent, hrej]

theorem makeError_error_iff (dd key : JsVal) (hkey : getProp dd "method" = .ok key) :
    (∃ e, makeError dd = .error e) ↔
      ∃ m, getProp dd "message" = .ok m ∧ m ≠ .undefined ∧ toStr m = none := by
  obtain ⟨m, hm⟩ := getProp_ok_of_ok dd key "method" "message" hkey
  obtain ⟨n, hn⟩ := getProp_ok_of_ok dd key "method" "name" hkey
  unfold makeError
  simp only [hm, hn]
  constructor
  · rintro ⟨e, he⟩
    refine ⟨m, rfl, ?_, ?_⟩
    · rintro rfl
      simp at he
    · cases hs : toStr m with
      | none => rfl
      | some text =>
        cases m <;> simp_all
  · rintro ⟨m', hm', hne, hnone⟩
    have hmm : m' = m := by
      have := hm'.symm
      simpa using this
    subst hmm
    refine ⟨.typeError, ?_⟩
    cases m' <;> simp_all

theorem rejectLoop_raised_iff (dd key : JsVal) (ws : List Waiter) (reg : Registry)
    (hws : ∀ w ∈ ws, ∃ id r, w = .handle id r false) :
    (rejectLoop dd key ws reg).raised ≠ none ↔ ws ≠ [] ∧ ∃ e, makeError dd = .error e := by
  induction ws generalizing reg with
  | nil => simp [rejectLoop]
  | cons p rest ih =>
    obtain ⟨id, r, rfl⟩ := hws p (List.mem_cons_self _ _)
    have hrest : ∀ w ∈ rest, ∃ id r, w = .handle id r false :=
      fun w hw => hws w (List.mem_cons_of_mem _ hw)
    unfold rejectLoop
    cases hme : makeError dd with
    | error e => simp
    | ok err =>
      simp only [Bool.false_eq_true, if_false]
      rw [ih _ hrest]
      simp [hme]

theorem dispatch_raised_falsy (reg : Registry) (data ev : JsVal)
    (hev : getProp data "event" = .ok ev) (hf : truthy ev = false) :
    (dispatch reg data).raised = none := by
  have hne : isErrorEvent ev = false := by
    cases ev <;> simp_all [isErrorEvent, truthy]
  exact dispatch_not_error_event reg data ev hev hne (fun h => by simp [hf] at h)

theorem dispatch_raised_event (reg : Registry) (data ev : JsVal)
    (hev : getProp data "event" = .ok ev) (ht : truthy ev = true)
    (hne : isErrorEvent ev = false) :
    (dispatch reg data).raised ≠ none ↔ toStr ev = none := by
  obtain ⟨d, hd⟩ := getProp_ok_of_ok data ev "event" "data" hev
  unfold dispatch
  simp only [hev, ht, hne, hd]
  cases toStr ev with
  | none => simp
  | some name => simp [deliver_eq]

theorem dispatch_raised_error (reg : Registry) (data ev : JsVal)
    (hev : getProp data "event" = .ok ev) (herr : isErrorEvent ev = true) :
    (dispatch reg data).raised ≠ none ↔ (rejectPending reg data).raised ≠ none := by
  have hevent : ev = .str "error" := by
    cases ev <;> simp [isErrorEvent] at herr
    rw [herr]
  subst hevent
  obtain ⟨d, hd⟩ := getProp_ok_of_ok data _ "event" "data" hev
  unfold dispatch
  simp only [hev, hd, truthy, isErrorEvent, toStr]
  cases hr : (rejectPending reg data).raised with
  | none => simp [hr, deliver_eq]
  | some e => simp [hr]

theorem rejectPending_raised_iff (reg : Registry) (data dd : JsVal)
    (hdd : getProp data "data" = .ok dd)
    (hgood : ∀ key, getProp dd "method" = .ok key →
      ∀ w ∈ getCallbacks reg key, ∃ id r, w = .handle id r false) :
    (rejectPending reg data).raised ≠ none ↔
      (dd = .null ∨ dd = .undefined ∨
        ∃ key m, getProp dd "method" = .ok key ∧ getCallbacks reg key ≠ [] ∧
          getProp dd "message" = .ok m ∧ m ≠ .undefined ∧ toStr m = none) := by
  unfold rejectPending
  simp only [hdd]
  cases hkey : getProp dd "method" with
  | error e =>
    have : dd = .null ∨ dd = .undefined := by
      cases dd <;> simp [getProp] at hkey ⊢
    simp [this]
  | ok key =>
    have hnn : dd ≠ .null ∧ dd ≠ .undefined := by
      constructor <;> (rintro rfl; simp [getProp] at hkey)
    simp only
    rw [rejectLoop_raised_iff dd key _ reg (hgood key hkey), makeError_error_iff dd key hkey]
    constructor
    · rintro ⟨hne, m, hm, hmu, hms⟩
      exact Or.inr (Or.inr ⟨key, m, rfl, hne, hm, hmu, hms⟩)
    · rintro (h | h | ⟨key', m, hk', hne, hm, hmu, hms⟩)
      · exact absurd h hnn.1
      · exact absurd h hnn.2
      · have : key' = key := by
          have := hk'.symm
          simpa using this
        subst this
        exact ⟨hne, m, hm, hmu, hms⟩

/-- C4 (as amended): where every waiter pending under the method that an
error event names is a handle whose `reject` returns, `processData` raises an
error to its caller if and only if the message is a string that fails to
parse, or it decodes to `null` or `undefined`, or its `event` value is truthy
and does not convert to a string, or it is an error event whose `data` is
`null` or `undefined`, or it is an error event that finds a waiter pending
and whose `data.message` does not convert to a string. Every other message,
whatever its shape and whatever the waiters it notifies do, is routed with
no error reaching the caller. A string that fails to parse raises the
`SyntaxError` of the parse, a decoded `null` or `undefined` a `TypeError`, and
in both cases no waiter is invoked and the registry is untouched. -/
theorem processData_raises (jsonParse : String → Option JsVal) (reg : Registry) (raw : JsVal)
    (hgood : ∀ data ev dd key, parseMessageData jsonParse raw = .ok data →
      getProp data "event" = .ok ev → isErrorEvent ev = true →
      getProp data "data" = .ok dd → getProp dd "method" = .ok key →
      ∀ w ∈ getCallbacks reg key, ∃ id r, w = .handle id r false) :
    ((processData jsonParse reg raw).raised ≠ none ↔
        (∃ s, raw = .str s ∧ jsonParse s = none) ∨
        ∃ data, parseMessageData jsonParse raw = .ok data ∧
          (data = .null ∨ data = .undefined ∨
            ∃ ev, getProp data "event" = .ok ev ∧ truthy ev = true ∧
              ((isErrorEvent ev = false ∧ toStr ev = none) ∨
                (isErrorEvent ev = true ∧ ∃ dd, getProp data "data" = .ok dd ∧
                  (dd = .null ∨ dd = .undefined ∨
                    ∃ key m, getProp dd "method" = .ok key ∧ getCallbacks reg key ≠ [] ∧
                      getProp dd "message" = .ok m ∧ m ≠ .undefined ∧ toStr m = none))))) ∧
      (∀ s, raw = .str s → jsonParse s = none →
        processData jsonParse reg raw = ⟨reg, [], some .syntaxError⟩) ∧
      (∀ data, parseMessageData jsonParse raw = .ok data → data = .null ∨ data = .undefined →
        processData jsonParse reg raw = ⟨reg, [], some .typeError⟩) := by
  refine ⟨?_, ?_, ?_⟩
  · cases hraw : parseMessageData jsonParse raw with
    | error e =>
      have hs : ∃ s, raw = .str s ∧ jsonParse s = none := by
        cases raw with
        | str s =>
          refine ⟨s, rfl, ?_⟩
          unfold parseMessageData at hraw
          cases hp : jsonParse s <;> simp [hp] at hraw ⊢
        | _ => simp [parseMessageData] at hraw
      simp [processData, hraw, hs]
    | ok data =>
      have hno : ¬ ∃ s, raw = .str s ∧ jsonParse s = none := by
        rintro ⟨s, rfl, hs⟩
        simp [parseMessageData, hs] at hraw
      rw [processData_decoded jsonParse reg raw _ hraw]
      simp only [hno, false_or, Except.ok.injEq, exists_eq_left']
      cases hev : getProp data "event" with
      | error e =>
        have hnull : data = .null ∨ data = .undefined := by
          cases data <;> simp [getProp] at hev ⊢
        have : (dispatch reg data).raised ≠ none := by
          simp [dispatch, hev]
        simp [this, hnull]
      | ok ev =>
        have hnn : data ≠ .null ∧ data ≠ .undefined := by
          constructor <;> (rintro rfl; simp [getProp] at hev)
        obtain ⟨dd, hdd⟩ := getProp_ok_of_ok data ev "event" "data" hev
        simp only [hnn.1, hnn.2, false_or, Except.ok.injEq, exists_eq_left', hdd]
        by_cases ht : truthy ev = true
        · by_cases herr : isErrorEvent ev = true
          · rw [dispatch_raised_error reg data ev hev herr,
              rejectPending_raised_iff reg data dd hdd
                (fun key hkey => hgood data ev dd key hraw hev herr hdd hkey)]
            simp [ht, herr]
          · have herr' : isErrorEvent ev = false := by simpa using herr
            rw [dispatch_raised_event reg data ev hev ht herr']
            simp [ht, herr']
        · have hf : truthy ev = false := by simpa using ht
          simp [dispatch_raised_falsy reg data ev hev hf, hf]
  · rintro s rfl hs
    simp [processData, parseMessageData, hs]
  · rintro data hraw (rfl | rfl) <;>
      simp [processData_decoded jsonParse reg raw _ hraw, dispatch, getProp]

theorem pendingDuration_good (key : JsVal) :
    ∀ w ∈ getCallbacks pendingDuration key, ∃ id r, w = .handle id r false := by
  intro w hw
  cases key with
  | str k =>
    by_cases hk : k = "getDuration"
    · subst hk
      have : w = .handle 1 false false ∨ w = .handle 2 false false := by
        simpa [getCallbacks, pendingDuration] using hw
      rcases this with rfl | rfl
      · exact ⟨1, false, rfl⟩
      · exact ⟨2, false, rfl⟩
    · simp [getCallbacks, pendingDuration, hk] at hw
  | _ => simp [getCallbacks] at hw

/-- C4, witness: the error event for `getDuration`, well formed, met by two
pending handles whose `reject` returns: none of the conditions holds, and
nothing is raised. -/
theorem processData_raises_witness :
    (∀ key, ∀ w ∈ getCallbacks pendingDuration key, ∃ id r, w = .handle id r false) ∧
      (processData noParse pendingDuration (errorEvent "getDuration" "Error" "no")).raised =
        none := by
  refine ⟨pendingDuration_good, ?_⟩
  have h := (processData_raises noParse pendingDuration (errorEvent "getDuration" "Error" "no")
    (fun _ _ _ key _ _ _ _ _ => pendingDuration_good key)).1
  by_contra hne
  rcases h.mp hne with ⟨s, hs, -⟩ | ⟨data, hdata, hcases⟩
  · simp [errorEvent, eventMessage] at hs
  · have hd : data = errorEvent "getDuration" "Error" "no" := by
      simpa [parseMessageData, errorEvent, eventMessage] using hdata.symm
    subst hd
    rcases hcases with h | h | ⟨ev, hev, -, hrest⟩
    · simp [errorEvent, eventMessage] at h
    · simp [errorEvent, eventMessage] at h
    · have hev' : ev = .str "error" := by
        simpa [errorEvent, eventMessage, getProp, List.lookup] using hev.symm
      subst hev'
      rcases hrest with ⟨h, -⟩ | ⟨-, dd, hdd, hdcases⟩
      · simp [isErrorEvent] at h
      · have hdd' : dd = .obj [("method", .str "getDuration"), ("name", .str "Error"),
            ("message", .str "no")] := by
          simpa [errorEvent, eventMessage, getProp, List.lookup] using hdd.symm
        subst hdd'
        rcases hdcases with h | h | ⟨key, m, -, -, hm, -, hstr⟩
        · simp at h
        · simp at h
        · have hm' : m = .str "no" := by
            simpa [getProp, List.lookup] using hm.symm
          subst hm'
          simp [toStr] at hstr

/-- C4, counterexample: the text `null` parses, and the decoded `null` makes
line 65 (`data.event`) raise a `TypeError`; so does the structured message
`null`; and the error event with no `data` raises on line 67
(`data.data.method`). None of them is a string that fails to parse. -/
theorem processData_raises_on_decoded_null :
    parseMessageData parseNull (.str "null") = .ok .null ∧
      (processData parseNull emptyRegistry (.str "null")).raised = some .typeError ∧
      (processData noParse emptyRegistry .null).raised = some .typeError ∧
      (processData noParse emptyRegistry (.obj [("event", .str "error")])).raised =
        some .typeError := by
  refine ⟨rfl, by decide, by decide, by decide⟩

/-! ## C5: a waiter that throws stops nothing -/

theorem callOf_waiter (v : JsVal) (w : Waiter) : (callOf v w).waiter = w := by
  cases w <;> rfl

theorem calls_on_waiter (v : JsVal) (w : Waiter) (ws : List Waiter) :
    ((ws.map (callOf v)).filter (fun c => decide (c.waiter = w))).length = ws.count w := by
  induction ws with
  | nil => rfl
  | cons a t ih =>
    by_cases h : a = w
    · subst h
      simp [List.filter_cons, callOf_waiter, ih]
    · simp [List.filter_cons, callOf_waiter, h, ih, List.count_cons]

/-- C5: for every list of waiters that is the active set, every delivered
value `v` and whatever each waiter's body does (it may raise), the delivery
loop invokes the waiters one by one, in order, each entry exactly once and
with the same `v` (a function is called, a handle is resolved), and raises
nothing of its own: an exception of one waiter stops neither the others nor
`processData`. For a call reply and for an event other than `error`, the whole
run of `processData` is this loop over the waiters registered under the key,
and it does not raise; for the event `error` the loop follows the rejections,
when these have raised nothing. -/
theorem deliver_survives_throwing_waiters (ws : List Waiter) (v : JsVal) (out : Outcome) :
    (deliver ws v out).trace = out.trace ++ ws.map (callOf v) ∧
      (deliver ws v out).raised = out.raised ∧
      (∀ w, ((ws.map (callOf v)).filter (fun c => decide (c.waiter = w))).length = ws.count w) ∧
      (∀ id throws, callOf v (.callback id throws) = .called (.callback id throws) v) ∧
      (∀ id r j, callOf v (.handle id r j) = .resolved (.handle id r j) v) ∧
      (∀ jsonParse reg M,
        (processData jsonParse reg (callReply M v)).raised = none ∧
        (processData jsonParse reg (callReply M v)).trace =
          if M = "" then [] else (getCallbacks reg (.str M)).map (callOf v)) ∧
      (∀ jsonParse reg E, E ≠ "error" →
        (processData jsonParse reg (eventMessage E v)).raised = none ∧
        (processData jsonParse reg (eventMessage E v)).trace =
          if E = "" then [] else (getCallbacks reg (.str ("event:" ++ E))).map (callOf v)) ∧
      (∀ jsonParse reg, (rejectPending reg (eventMessage "error" v)).raised = none →
        (processData jsonParse reg (eventMessage "error" v)).raised = none ∧
        (processData jsonParse reg (eventMessage "error" v)).trace =
          (rejectPending reg (eventMessage "error" v)).trace ++
            (getCallbacks (rejectPending reg (eventMessage "error" v)).reg
              (.str "event:error")).map (callOf v)) := by
  refine ⟨by simp [deliver_eq], by simp [deliver_eq], fun w => calls_on_waiter v w ws,
    fun _ _ => rfl, fun _ _ _ => rfl, ?_, ?_, ?_⟩
  · intro jsonParse reg M
    rw [processData_decoded jsonParse reg (callReply M v) (callReply M v) rfl]
    by_cases hM : M = ""
    · subst hM
      simp [dispatch_callReply_empty]
    · simp [dispatch_callReply reg M v hM, hM, getCallbacks]
  · intro jsonParse reg E hE
    rw [processData_decoded jsonParse reg (eventMessage E v) (eventMessage E v) rfl]
    by_cases hE0 : E = ""
    · subst hE0
      simp [dispatch, eventMessage, getProp, List.lookup, truthy, deliver]
    · simp [dispatch_eventMessage reg E v hE0 hE, hE0, getCallbacks]
  · intro jsonParse reg hrej
    rw [processData_decoded jsonParse reg (eventMessage "error" v) (eventMessage "error" v) rfl,
      dispatch_errorMessage reg v hrej]
    exact ⟨rfl, rfl⟩

/-! ## Reading back what `JSON.stringify` writes -/

theorem char_eq_of_toNat (c : Char) (n : Nat) (h : c.toNat = n) : c = Char.ofNat n := by
  rw [← h, Char.ofNat_toNat]

theorem hexValue_hexDigit (k : Nat) (hk : k < 16) : hexValue (hexDigit k) = some k := by
  interval_cases k <;> rfl

theorem decodeString_escape (e ch : Char) (tail : List Char) (he : e ≠ 'u')
    (hu : unescape e = some ch) :
    decodeString (backslash :: e :: tail) =
      match decodeString tail with
      | some (cs, r) => some (ch :: cs, r)
      | none => none := by
  have hbq : backslash ≠ quote := by decide
  conv_lhs => unfold decodeString
  simp only [hbq, if_false, if_true, he, hu]

theorem decodeString_unicode (h1 h2 h3 h4 : Char) (a b c d : Nat) (tail : List Char)
    (ha : hexValue h1 = some a) (hb : hexValue h2 = some b) (hc : hexValue h3 = some c)
    (hd : hexValue h4 = some d)
    (hcode : ¬ (55296 ≤ 4096 * a + 256 * b + 16 * c + d ∧ 4096 * a + 256 * b + 16 * c + d ≤ 57343)) :
    decodeString (backslash :: 'u' :: h1 :: h2 :: h3 :: h4 :: tail) =
      match decodeString tail with
      | some (cs, r) => some (Char.ofNat (4096 * a + 256 * b + 16 * c + d) :: cs, r)
      | none => none := by
  have hbq : backslash ≠ quote := by decide
  conv_lhs => unfold decodeString
  simp only [hbq, if_false, if_true, ha, hb, hc, hd, hcode]

theorem decodeString_plain (c : Char) (tail : List Char) (hq : c ≠ quote) (hb : c ≠ backslash)
    (hlt : ¬ c.toNat < 32) :
    decodeString (c :: tail) =
      match decodeString tail with
      | some (cs, r) => some (c :: cs, r)
      | none => none := by
  conv_lhs => unfold decodeString
  simp only [hq, hb, hlt, if_false]

theorem decodeString_quoteChar (c : Char) (tail : List Char) :
    decodeString (quoteChar c ++ tail) =
      match decodeString tail with
      | some (cs, r) => some (c :: cs, r)
      | none => none := by
  unfold quoteChar
  by_cases h8 : c.toNat = 8
  · rw [if_pos h8, char_eq_of_toNat c 8 h8]
    exact decodeString_escape 'b' _ tail (by decide) (by decide)
  rw [if_neg h8]
  by_cases h9 : c.toNat = 9
  · rw [if_pos h9, char_eq_of_toNat c 9 h9]
    exact decodeString_escape 't' _ tail (by decide) (by decide)
  rw [if_neg h9]
  by_cases h10 : c.toNat = 10
  · rw [if_pos h10, char_eq_of_toNat c 10 h10]
    exact decodeString_escape 'n' _ tail (by decide) (by decide)
  rw [if_neg h10]
  by_cases h12 : c.toNat = 12
  · rw [if_pos h12, char_eq_of_toNat c 12 h12]
    exact decodeString_escape 'f' _ tail (by decide) (by decide)
  rw [if_neg h12]
  by_cases h13 : c.toNat = 13
  · rw [if_pos h13, char_eq_of_toNat c 13 h13]
    exact decodeString_escape 'r' _ tail (by decide) (by decide)
  rw [if_neg h13]
  by_cases h34 : c.toNat = 34
  · rw [if_pos h34, char_eq_of_toNat c 34 h34]
    exact decodeString_escape quote _ tail (by decide) (by decide)
  rw [if_neg h34]
  by_cases h92 : c.toNat = 92
  · rw [if_pos h92, char_eq_of_toNat c 92 h92]
    exact decodeString_escape backslash _ tail (by decide) (by decide)
  rw [if_neg h92]
  by_cases hlt : c.toNat < 32
  · rw [if_pos hlt]
    have h0 : c.toNat / 4096 % 16 = 0 := by omega
    have h1 : c.toNat / 256 % 16 = 0 := by omega
    have h2 : c.toNat / 16 % 16 < 16 := by omega
    have h3 : c.toNat % 16 < 16 := by omega
    have hcode : 4096 * 0 + 256 * 0 + 16 * (c.toNat / 16 % 16) + c.toNat % 16 = c.toNat := by
      omega
    have := decodeString_unicode (hexDigit (c.toNat / 4096 % 16)) (hexDigit (c.toNat / 256 % 16))
      (hexDigit (c.toNat / 16 % 16)) (hexDigit (c.toNat % 16)) 0 0 (c.toNat / 16 % 16)
      (c.toNat % 16) tail (by rw [h0]; rfl) (by rw [h1]; rfl) (hexValue_hexDigit _ h2)
      (hexValue_hexDigit _ h3) (by omega)
    rw [hcode, Char.ofNat_toNat] at this
    exact this
  · rw [if_neg hlt]
    have hq : c ≠ quote := fun h => h34 (by rw [h]; rfl)
    have hb : c ≠ backslash := fun h => h92 (by rw [h]; rfl)
    exact decodeString_plain c tail hq hb hlt

theorem decodeString_quoted (chars rest : List Char) :
    decodeString (chars.flatMap quoteChar ++ quote :: rest) = some (chars, rest) := by
  induction chars with
  | nil =>
    show decodeString (quote :: rest) = _
    conv_lhs => unfold decodeString
    simp
  | cons c cs ih =>
    rw [List.flatMap_cons, List.append_assoc, decodeString_quoteChar, ih]

theorem takeWhile_append_stop (p : Char → Bool) (l rest : List Char) (hl : ∀ c ∈ l, p c = true)
    (hrest : ∀ c ∈ rest.head?, p c = false) :
    (l ++ rest).takeWhile p = l ∧ (l ++ rest).dropWhile p = rest := by
  induction l with
  | nil =>
    cases rest with
    | nil => simp
    | cons c r =>
      have : p c = false := hrest c (by simp)
      simp [List.takeWhile_cons, List.dropWhile_cons, this]
  | cons a l ih =>
    have ha : p a = true := hl a (List.mem_cons_self _ _)
    have := ih (fun c hc => hl c (List.mem_cons_of_mem _ hc))
    simp [List.takeWhile_cons, List.dropWhile_cons, ha, this]

theorem expectChars_append (es rest : List Char) : expectChars es (es ++ rest) = some rest := by
  induction es with
  | nil => cases rest <;> rfl
  | cons e es ih => simp [expectChars, ih]

theorem decodeNumber_text (rn : String → Option JsNum) (text : String) (rest : List Char)
    (hsafe : numberSafe rn (.finite text) = true)
    (hrest : ∀ c ∈ rest.head?, isNumberChar c = false) :
    decodeNumber rn (text.data ++ rest) = some (.finite text, rest) := by
  simp only [numberSafe, Bool.and_eq_true, Bool.or_eq_true, List.all_eq_true] at hsafe
  obtain ⟨⟨⟨-, hall⟩, -⟩, hread⟩ := hsafe
  obtain ⟨htake, hdrop⟩ := takeWhile_append_stop isNumberChar text.data rest hall hrest
  unfold decodeNumber
  simp only [htake, hdrop]
  have hmk : String.mk text.data = text := rfl
  rw [hmk]
  by_cases hint : isSafeInteger text.data = true
  · simp [hint]
  · have hr : rn text = some (.finite text) := by
      rcases hread with h | h
      · exact absurd h hint
      · simpa using h
    simp [hint, hr]

theorem numberSafe_head (rn : String → Option JsNum) (text : String)
    (hsafe : numberSafe rn (.finite text) = true) :
    ∃ c r, text.data = c :: r ∧ (c = '-' ∨ c.isDigit = true) := by
  simp only [numberSafe, Bool.and_eq_true, Bool.or_eq_true] at hsafe
  obtain ⟨⟨⟨-, -⟩, hhead⟩, -⟩ := hsafe
  cases hd : text.data with
  | nil => simp [hd] at hhead
  | cons c r =>
    refine ⟨c, r, rfl, ?_⟩
    simpa [hd] using hhead

theorem starts_number_ne (c : Char) (h : c = '-' ∨ c.isDigit = true) :
    c ≠ 'n' ∧ c ≠ 't' ∧ c ≠ 'f' ∧ c ≠ quote ∧ c ≠ '[' ∧ c ≠ Char.ofNat 123 ∧ c ≠ ']' := by
  rcases h with rfl | h
  · decide
  · refine ⟨?_, ?_, ?_, ?_, ?_, ?_, ?_⟩ <;> (rintro rfl; revert h; decide)

theorem decodeValue_scalar (rn : String → Option JsNum) (fuel : Nat) (c : Char)
    (cs : List Char) (h1 : c ≠ '[') (h2 : c ≠ Char.ofNat 123) :
    decodeValue rn (fuel + 1) (c :: cs) = decodeScalar rn c cs := by
  rw [decodeValue]
  simp only [h1, h2, if_false]

theorem decodeValue_number (rn : String → Option JsNum) (text : String) (fuel : Nat)
    (rest : List Char) (hsafe : numberSafe rn (.finite text) = true)
    (hrest : ∀ c ∈ rest.head?, isNumberChar c = false) :
    decodeValue rn (fuel + 1) (text.data ++ rest) = some (.num (.finite text), rest) := by
  obtain ⟨c, r, hcr, hc⟩ := numberSafe_head rn text hsafe
  obtain ⟨h1, h2, h3, h4, h5, h6, -⟩ := starts_number_ne c hc
  have hnum := decodeNumber_text rn text rest hsafe hrest
  rw [hcr] at hnum ⊢
  rw [List.cons_append] at hnum ⊢
  rw [decodeValue_scalar rn fuel c _ h5 h6]
  unfold decodeScalar
  simp only [h1, h2, h3, h4, if_false, hc, if_true, hnum]

theorem decodeValue_null (rn : String → Option JsNum) (fuel : Nat) (rest : List Char) :
    decodeValue rn (fuel + 1) (['n', 'u', 'l', 'l'] ++ rest) = some (.null, rest) := by
  show decodeValue rn (fuel + 1) ('n' :: (['u', 'l', 'l'] ++ rest)) = _
  rw [decodeValue_scalar rn fuel 'n' _ (by decide) (by decide)]
  unfold decodeScalar
  simp only [if_true, expectChars_append]

theorem decodeValue_true (rn : String → Option JsNum) (fuel : Nat) (rest : List Char) :
    decodeValue rn (fuel + 1) (['t', 'r', 'u', 'e'] ++ rest) = some (.bool true, rest) := by
  show decodeValue rn (fuel + 1) ('t' :: (['r', 'u', 'e'] ++ rest)) = _
  rw [decodeValue_scalar rn fuel 't' _ (by decide) (by decide)]
  unfold decodeScalar
  have h : ('t' : Char) ≠ 'n' := by decide
  simp only [h, if_false, if_true, expectChars_append]

theorem decodeValue_false (rn : String → Option JsNum) (fuel : Nat) (rest : List Char) :
    decodeValue rn (fuel + 1) (['f', 'a', 'l', 's', 'e'] ++ rest) = some (.bool false, rest) := by
  show decodeValue rn (fuel + 1) ('f' :: (['a', 'l', 's', 'e'] ++ rest)) = _
  rw [decodeValue_scalar rn fuel 'f' _ (by decide) (by decide)]
  unfold decodeScalar
  have h1 : ('f' : Char) ≠ 'n' := by decide
  have h2 : ('f' : Char) ≠ 't' := by decide
  simp only [h1, h2, if_false, if_true, expectChars_append]

theorem decodeValue_string (rn : String → Option JsNum) (s : String) (fuel : Nat)
    (rest : List Char) :
    decodeValue rn (fuel + 1) (quoteJSONString s ++ rest) = some (.str s, rest) := by
  have hq : quoteJSONString s ++ rest = quote :: (s.data.flatMap quoteChar ++ quote :: rest) := by
    simp [quoteJSONString]
  rw [hq, decodeValue_scalar rn fuel quote _ (by decide) (by decide)]
  unfold decodeScalar
  have h1 : quote ≠ 'n' := by decide
  have h2 : quote ≠ 't' := by decide
  have h3 : quote ≠ 'f' := by decide
  simp only [h1, h2, h3, if_false, if_true, decodeString_quoted]

theorem afterValue_close {α : Type} (close : Char) (v : α) (rest : List Char)
    (more : List Char → Option (List α × List Char)) (h : close ≠ ',') :
    afterValue close v (close :: rest) more = some ([v], rest) := by
  simp [afterValue, h]

theorem afterValue_comma {α : Type} (close : Char) (v : α) (vs : List α)
    (text rest : List Char) (more : List Char → Option (List α × List Char))
    (h : more text = some (vs, rest)) :
    afterValue close v (',' :: text) more = some (v :: vs, rest) := by
  simp [afterValue, h]

theorem stops_cons (c : Char) (rest : List Char) (h : isNumberChar c = false) :
    ∀ x ∈ (c :: rest).head?, isNumberChar x = false := by
  intro x hx
  simp only [List.head?_cons, Option.mem_def, Option.some.injEq] at hx
  rw [← hx]
  exact h

theorem joinComma_cons_cons (t u : List Char) (rest : List (List Char)) :
    joinComma (t :: u :: rest) = t ++ ',' :: joinComma (u :: rest) := rfl

mutual
/-- A value that is `jsonSafe` is written by `JSON.stringify` as a text that
reads back as the value, whatever follows it that is not a number
character. -/
theorem decodeValue_serialize (rn : String → Option JsNum) :
    ∀ v : JsVal, jsonSafe rn v = true →
      ∃ t, serializeJSONProperty v = some t ∧ (∃ c r, t = c :: r ∧ c ≠ ']') ∧
        ∀ fuel rest, t.length + 1 ≤ fuel → (∀ c ∈ rest.head?, isNumberChar c = false) →
          decodeValue rn fuel (t ++ rest) = some (v, rest)
  | .undefined, h => by simp [jsonSafe] at h
  | .null, _ => by
    refine ⟨_, rfl, ⟨'n', _, rfl, by decide⟩, ?_⟩
    intro fuel rest hf _
    obtain ⟨f, rfl⟩ : ∃ f, fuel = f + 1 := ⟨fuel - 1, by omega⟩
    exact decodeValue_null rn f rest
  | .bool true, _ => by
    refine ⟨_, rfl, ⟨'t', _, rfl, by decide⟩, ?_⟩
    intro fuel rest hf _
    obtain ⟨f, rfl⟩ : ∃ f, fuel = f + 1 := ⟨fuel - 1, by omega⟩
    exact decodeValue_true rn f rest
  | .bool false, _ => by
    refine ⟨_, rfl, ⟨'f', _, rfl, by decide⟩, ?_⟩
    intro fuel rest hf _
    obtain ⟨f, rfl⟩ : ∃ f, fuel = f + 1 := ⟨fuel - 1, by omega⟩
    exact decodeValue_false rn f rest
  | .num n, h => by
    cases n with
    | finite text =>
      have hs : numberSafe rn (.finite text) = true := by simpa [jsonSafe] using h
      obtain ⟨c, r, hcr, hc⟩ := numberSafe_head rn text hs
      refine ⟨text.data, rfl, ⟨c, r, hcr, (starts_number_ne c hc).2.2.2.2.2.2⟩, ?_⟩
      intro fuel rest hf hrest
      obtain ⟨f, rfl⟩ : ∃ f, fuel = f + 1 := ⟨fuel - 1, by omega⟩
      exact decodeValue_number rn text f rest hs hrest
    | _ => simp [jsonSafe, numberSafe] at h
  | .str s, _ => by
    refine ⟨quoteJSONString s, rfl, ⟨quote, _, rfl, by decide⟩, ?_⟩
    intro fuel rest hf _
    obtain ⟨f, rfl⟩ : ∃ f, fuel = f + 1 := ⟨fuel - 1, by omega⟩
    exact decodeValue_string rn s f rest
  | .arr items, h => by
    have hi : itemsSafe rn items = true := by simpa [jsonSafe] using h
    refine ⟨_, rfl, ⟨'[', _, rfl, by decide⟩, ?_⟩
    intro fuel rest hf _
    obtain ⟨f, rfl⟩ : ∃ f, fuel = f + 1 := ⟨fuel - 1, by omega⟩
    have hshape : ('[' :: (joinComma (serializeItems items) ++ [']'])) ++ rest =
        '[' :: (joinComma (serializeItems items) ++ ']' :: rest) := by simp
    rw [hshape, decodeValue]
    simp only [if_true]
    cases items with
    | nil => simp [serializeItems, joinComma]
    | cons v vs =>
      obtain ⟨⟨c, r, hcr, hc⟩, hread⟩ := decodeItems_serialize rn (v :: vs) hi (by simp)
      have hlen : (joinComma (serializeItems (v :: vs))).length + 2 ≤ f := by
        simp only [List.length_cons, List.length_append, List.length_nil] at hf
        omega
      rw [hread f rest hlen, hcr]
      simp [closeArray, hc]
  | .obj fields, h => by
    have hk : keysInOrder (fields.map Prod.fst) = true ∧ membersSafe rn fields = true := by
      simpa [jsonSafe] using h
    refine ⟨_, rfl, ⟨Char.ofNat 123, _, rfl, by decide⟩, ?_⟩
    intro fuel rest hf _
    obtain ⟨f, rfl⟩ : ∃ f, fuel = f + 1 := ⟨fuel - 1, by omega⟩
    have hshape : (Char.ofNat 123 :: (joinComma (serializeMembers fields) ++ [Char.ofNat 125]))
        ++ rest =
        Char.ofNat 123 :: (joinComma (serializeMembers fields) ++ Char.ofNat 125 :: rest) := by
      simp
    have h1 : Char.ofNat 123 ≠ '[' := by decide
    rw [hshape, decodeValue]
    simp only [h1, if_false, if_true]
    cases fields with
    | nil => simp [serializeMembers, joinComma]
    | cons p ps =>
      obtain ⟨⟨r, hcr⟩, hread⟩ := decodeMembers_serialize rn (p :: ps) hk.2 (by simp)
      have hlen : (joinComma (serializeMembers (p :: ps))).length + 2 ≤ f := by
        simp only [List.length_cons, List.length_append, List.length_nil] at hf
        omega
      have hq : quote ≠ Char.ofNat 125 := by decide
      have hk1 := hk.1
      simp only [List.map_cons] at hk1
      rw [hread f rest hlen, hcr]
      simp [closeObject, hk1, hq]
/-- The items of an array that are all `jsonSafe` read back, up to the closing
bracket. -/
theorem decodeItems_serialize (rn : String → Option JsNum) :
    ∀ items : List JsVal, itemsSafe rn items = true → items ≠ [] →
      (∃ c r, joinComma (serializeItems items) = c :: r ∧ c ≠ ']') ∧
        ∀ fuel rest, (joinComma (serializeItems items)).length + 2 ≤ fuel →
          decodeItems rn fuel (joinComma (serializeItems items) ++ ']' :: rest) =
            some (items, rest)
  | [], _, hne => absurd rfl hne
  | v :: vs, h, _ => by
    have hv : jsonSafe rn v = true ∧ itemsSafe rn vs = true := by
      simpa [itemsSafe] using h
    obtain ⟨t, ht, ⟨c, r, hcr, hc⟩, hread⟩ := decodeValue_serialize rn v hv.1
    have hser : serializeItems (v :: vs) = t :: serializeItems vs := by
      simp [serializeItems, ht]
    rw [hser]
    cases vs with
    | nil =>
      refine ⟨⟨c, r, by simpa [serializeItems, joinComma] using hcr, hc⟩, ?_⟩
      intro fuel rest hf
      obtain ⟨f, rfl⟩ : ∃ f, fuel = f + 1 := ⟨fuel - 1, by omega⟩
      have hlen : t.length + 1 ≤ f := by
        simp only [serializeItems, joinComma] at hf
        omega
      simp only [serializeItems, joinComma]
      rw [decodeItems, hread f (']' :: rest) hlen (stops_cons _ _ (by decide))]
      exact afterValue_close ']' v rest _ (by decide)
    | cons w ws =>
      obtain ⟨-, hrest⟩ := decodeItems_serialize rn (w :: ws) hv.2 (by simp)
      have hj : joinComma (t :: serializeItems (w :: ws)) =
          t ++ ',' :: joinComma (serializeItems (w :: ws)) := by
        cases hs : serializeItems (w :: ws) with
        | nil => simp [serializeItems] at hs
        | cons u us => rfl
      rw [hj]
      refine ⟨⟨c, r ++ ',' :: joinComma (serializeItems (w :: ws)), by simp [hcr], hc⟩, ?_⟩
      intro fuel rest hf
      obtain ⟨f, rfl⟩ : ∃ f, fuel = f + 1 := ⟨fuel - 1, by omega⟩
      simp only [List.length_append, List.length_cons] at hf
      have hlen : t.length + 1 ≤ f := by omega
      have hshape : (t ++ ',' :: joinComma (serializeItems (w :: ws))) ++ ']' :: rest =
          t ++ (',' :: (joinComma (serializeItems (w :: ws)) ++ ']' :: rest)) := by simp
      rw [hshape, decodeItems,
        hread f (',' :: (joinComma (serializeItems (w :: ws)) ++ ']' :: rest)) hlen
          (stops_cons _ _ (by decide))]
      exact afterValue_comma ']' v (w :: ws) _ rest _ (hrest f rest (by omega))
/-- The members of an object whose values are all `jsonSafe` read back, up to
the closing brace. -/
theorem decodeMembers_serialize (rn : String → Option JsNum) :
    ∀ fields : List (String × JsVal), membersSafe rn fields = true → fields ≠ [] →
      (∃ r, joinComma (serializeMembers fields) = quote :: r) ∧
        ∀ fuel rest, (joinComma (serializeMembers fields)).length + 2 ≤ fuel →
          decodeMembers rn fuel (joinComma (serializeMembers fields) ++ Char.ofNat 125 :: rest) =
            some (fields, rest)
  | [], _, hne => absurd rfl hne
  | (k, v) :: ps, h, _ => by
    have hv : jsonSafe rn v = true ∧ membersSafe rn ps = true := by
      simpa [membersSafe] using h
    obtain ⟨t, ht, -, hread⟩ := decodeValue_serialize rn v hv.1
    have hser : serializeMembers ((k, v) :: ps) =
        (quoteJSONString k ++ ':' :: t) :: serializeMembers ps := by
      simp [serializeMembers, ht]
    have hmember : ∀ tail : List Char, (quoteJSONString k ++ ':' :: t) ++ tail =
        quote :: (k.data.flatMap quoteChar ++ quote :: (':' :: (t ++ tail))) := by
      intro tail
      simp [quoteJSONString]
    have hkey : String.mk k.data = k := rfl
    rw [hser]
    cases ps with
    | nil =>
      refine ⟨⟨(k.data.flatMap quoteChar ++ [quote]) ++ ':' :: t,
        by simp [serializeMembers, joinComma, quoteJSONString]⟩, ?_⟩
      intro fuel rest hf
      obtain ⟨f, rfl⟩ : ∃ f, fuel = f + 1 := ⟨fuel - 1, by omega⟩
      simp only [serializeMembers, joinComma, List.length_append, List.length_cons] at hf
      have hlen : t.length + 1 ≤ f := by omega
      simp only [serializeMembers, joinComma]
      rw [hmember, decodeMembers]
      simp only [List.head?_cons, List.tail_cons, if_true, decodeString_quoted,
        hread f (Char.ofNat 125 :: rest) hlen (stops_cons _ _ (by decide)), hkey]
      exact afterValue_close (Char.ofNat 125) (k, v) rest _ (by decide)
    | cons q qs =>
      obtain ⟨-, hrest⟩ := decodeMembers_serialize rn (q :: qs) hv.2 (by simp)
      have hj : joinComma ((quoteJSONString k ++ ':' :: t) :: serializeMembers (q :: qs)) =
          (quoteJSONString k ++ ':' :: t) ++ ',' :: joinComma (serializeMembers (q :: qs)) := by
        obtain ⟨r, hr⟩ := (decodeMembers_serialize rn (q :: qs) hv.2 (by simp)).1
        cases hs : serializeMembers (q :: qs) with
        | nil => simp [hs, joinComma] at hr
        | cons u us => rfl
      rw [hj]
      refine ⟨⟨(k.data.flatMap quoteChar ++ [quote]) ++ ':' :: t ++
        ',' :: joinComma (serializeMembers (q :: qs)), by simp [quoteJSONString]⟩, ?_⟩
      intro fuel rest hf
      obtain ⟨f, rfl⟩ : ∃ f, fuel = f + 1 := ⟨fuel - 1, by omega⟩
      simp only [List.length_append, List.length_cons] at hf
      have hlen : t.length + 1 ≤ f := by omega
      have hshape : ((quoteJSONString k ++ ':' :: t) ++
            ',' :: joinComma (serializeMembers (q :: qs))) ++ Char.ofNat 125 :: rest =
          (quoteJSONString k ++ ':' :: t) ++
            (',' :: (joinComma (serializeMembers (q :: qs)) ++ Char.ofNat 125 :: rest)) := by
        simp
      rw [hshape, hmember, decodeMembers]
      simp only [List.head?_cons, List.tail_cons, if_true, decodeString_quoted,
        hread f (',' :: (joinComma (serializeMembers (q :: qs)) ++ Char.ofNat 125 :: rest)) hlen
          (stops_cons _ _ (by decide)), hkey]
      exact afterValue_comma (Char.ofNat 125) (k, v) (q :: qs) _ rest _ (hrest f rest (by omega))
end

/-- What `JSON.stringify` writes for a value that is `jsonSafe` is a text that
`jsonDecode` reads as this value. -/
theorem jsonDecode_jsonStringify (rn : String → Option JsNum) (v : JsVal)
    (h : jsonSafe rn v = true) :
    ∃ text, jsonStringify v = some text ∧ jsonDecode rn text = some v := by
  obtain ⟨t, ht, -, hread⟩ := decodeValue_serialize rn v h
  refine ⟨String.mk t, by simp [jsonStringify, ht], ?_⟩
  have hlen : (String.mk t).length = t.length := rfl
  have hdata : (String.mk t).data = t := rfl
  have := hread (t.length + 1) [] (Nat.le_refl _) (by simp)
  rw [List.append_nil] at this
  unfold jsonDecode
  rw [hlen, hdata, this]

theorem jsonSafe_buildMessage (rn : String → Option JsNum) (method : String) (params : JsVal)
    (h : params = .undefined ∨ jsonSafe rn params = true) :
    jsonSafe rn (buildMessage method params) = true := by
  rcases h with rfl | h
  · have hk : keysInOrder ["method"] = true := by decide
    simp [buildMessage, isUndefined, jsonSafe, membersSafe, hk]
  · have hk : keysInOrder ["method", "value"] = true := by decide
    have hu : isUndefined params = false := by
      cases params <;> simp_all [isUndefined, jsonSafe]
    simp [buildMessage, hu, jsonSafe, membersSafe, hk, h]

theorem jsonStringify_buildMessage (method : String) (params : JsVal) :
    ∃ text, jsonStringify (buildMessage method params) = some text := by
  unfold buildMessage jsonStringify
  rw [serializeJSONProperty]
  exact ⟨_, rfl⟩

/-! ## C6: what `postMessage` sends decodes to the message -/

/-- C6 (as amended): when the target window has `postMessage`, the call makes
one delivery, whose payload passed through `parseMessageData` is the message
`{method, value: params}` for `params` other than `undefined` (also for
`null`) and `{method}` with no `value` property for `undefined`: for every
method and params in the structured mode, and in the stringified mode for
every method and every params that is `undefined` or holds no `undefined`, no
`NaN`, no infinity and no negative zero (`jsonSafe`). `JSON.parse` is any
function that reads compact JSON texts as `jsonDecode` does. -/
theorem postMessage_payload_decodes (jsonParse : String → Option JsVal)
    (readNumber : String → Option JsNum) (player : Player)
    (target : Window) (ieVersion : Option ℚ) (method : String) (params : JsVal)
    (htarget : player.contentWindow = some target) (hpost : target.hasPostMessage = true)
    (hparse : ∀ text v, jsonDecode readNumber text = some v → jsonParse text = some v) :
    (params ≠ .undefined →
        buildMessage method params = .obj [("method", .str method), ("value", params)]) ∧
      buildMessage method .undefined = .obj [("method", .str method)] ∧
      hasField (buildMessage method .undefined) "value" = false ∧
      (stringifies ieVersion = false →
        postMessage player ieVersion method params =
          .delivered (buildMessage method params) player.origin ∧
        parseMessageData jsonParse (buildMessage method params) =
          .ok (buildMessage method params)) ∧
      (stringifies ieVersion = true →
        ∃ text, jsonStringify (buildMessage method params) = some text ∧
          postMessage player ieVersion method params = .delivered (.str text) player.origin ∧
          (params = .undefined ∨ jsonSafe readNumber params = true →
            parseMessageData jsonParse (.str text) = .ok (buildMessage method params))) := by
  refine ⟨?_, rfl, rfl, ?_, ?_⟩
  · intro h
    cases params <;> simp [buildMessage, isUndefined] at h ⊢
  · intro h
    refine ⟨by simp [postMessage, htarget, hpost, h], ?_⟩
    simp [buildMessage, parseMessageData]
  · intro h
    obtain ⟨text, htext⟩ := jsonStringify_buildMessage method params
    refine ⟨text, htext, by simp [postMessage, htarget, hpost, h, htext], ?_⟩
    intro hsafe
    obtain ⟨text', htext', hdecode⟩ := jsonDecode_jsonStringify readNumber _
      (jsonSafe_buildMessage readNumber method params hsafe)
    have : text' = text := by
      rw [htext] at htext'
      exact (Option.some.inj htext').symm
    subst this
    simp [parseMessageData, hparse _ _ hdecode]

/-- C6, witness: `setColor` with parameters that hold a string to escape, a
fraction, a negative integer, `null`, arrays and an object, sent in the
stringified mode (version 9): the payload is the JSON text of the message,
and `parseMessageData` gives the message back. -/
theorem postMessage_payload_decodes_witness :
    readyPlayer.contentWindow = some ⟨true⟩ ∧ (⟨true⟩ : Window).hasPostMessage = true ∧
      (∀ text v, jsonDecode readOneAndAHalf text = some v →
        jsonDecode readOneAndAHalf text = some v) ∧
      jsonSafe readOneAndAHalf sampleParams = true ∧
      postMessage readyPlayer (some 9) "setColor" sampleParams =
        .delivered (.str sampleText) readyPlayer.origin ∧
      parseMessageData (jsonDecode readOneAndAHalf) (.str sampleText) =
        .ok (.obj [("method", .str "setColor"), ("value", sampleParams)]) := by
  have h := postMessage_payload_decodes (jsonDecode readOneAndAHalf) readOneAndAHalf readyPlayer
    ⟨true⟩ (some 9) "setColor" sampleParams rfl rfl (fun _ _ h => h)
  obtain ⟨-, -, -, -, hs⟩ := h
  obtain ⟨text, htext, hpost, hback⟩ := hs (by decide)
  have ht : text = sampleText := by
    have : jsonStringify (buildMessage "setColor" sampleParams) = some sampleText := by
      decide
    rw [this] at htext
    exact (Option.some.inj htext).symm
  subst ht
  exact ⟨rfl, rfl, fun _ _ h => h, by decide, hpost, hback (Or.inr (by decide))⟩

/-- C6, counterexample: in the stringified mode `params = [undefined]` is sent
as the text of `[null]`, the very text sent for `params = [null]`, and `NaN` is
sent as the text sent for `null`; so no `JSON.parse` whatever decodes these
payloads to the messages they were built from, although no `params` here is
`undefined`. -/
theorem postMessage_stringified_loses_undefined :
    postMessage readyPlayer (some 9) "setColor" (.arr [.undefined]) =
        .delivered (.str setColorText) readyPlayer.origin ∧
      postMessage readyPlayer (some 9) "setColor" (.arr [.null]) =
        .delivered (.str setColorText) readyPlayer.origin ∧
      postMessage readyPlayer (some 9) "setColor" (.num .nan) =
        postMessage readyPlayer (some 9) "setColor" .null ∧
      ¬ ∃ jsonParse : String → Option JsVal,
        parseMessageData jsonParse (.str setColorText) =
            .ok (.obj [("method", .str "setColor"), ("value", .arr [.undefined])]) ∧
          parseMessageData jsonParse (.str setColorText) =
            .ok (.obj [("method", .str "setColor"), ("value", .arr [.null])]) := by
  refine ⟨by rfl, by rfl, by rfl, ?_⟩
  rintro ⟨jsonParse, h1, h2⟩
  rw [h1] at h2
  simp at h2

/-! ## C7: a message with neither `event` nor `method` -/

/-- C7 (as amended): for every registry and every decoded message other than
`null` and `undefined` that has neither an `event` nor a `method` property,
`processData` invokes no waiter, leaves the registry exactly as it was and
raises nothing. -/
theorem message_without_event_and_method_is_ignored (jsonParse : String → Option JsVal)
    (reg : Registry) (raw data : JsVal) (hraw : parseMessageData jsonParse raw = .ok data)
    (hnull : data ≠ .null) (hundef : data ≠ .undefined)
    (hevent : hasField data "event" = false) (hmethod : hasField data "method" = false) :
    processData jsonParse reg raw = ⟨reg, [], none⟩ := by
  rw [processData_decoded jsonParse reg raw _ hraw]
  cases data with
  | undefined => exact absurd rfl hundef
  | null => exact absurd rfl hnull
  | obj fields =>
    have he : fields.lookup "event" = none := by
      cases h : fields.lookup "event" <;> simp [hasField, h] at hevent ⊢
    have hm : fields.lookup "method" = none := by
      cases h : fields.lookup "method" <;> simp [hasField, h] at hmethod ⊢
    simp [dispatch, getProp, he, hm, truthy, deliver]
  | _ => simp [dispatch, getProp, truthy, deliver]

/-- C7, witness: the message `{value: 83}` met by two pending handles. -/
theorem message_without_event_and_method_is_ignored_witness :
    parseMessageData noParse (.obj [("value", .num (.finite "83"))]) = .ok (.obj [("value", .num (.finite "83"))]) ∧
      hasField (.obj [("value", .num (.finite "83"))]) "event" = false ∧
      hasField (.obj [("value", .num (.finite "83"))]) "method" = false ∧
      processData noParse pendingDuration (.obj [("value", .num (.finite "83"))]) =
        ⟨pendingDuration, [], none⟩ :=
  ⟨rfl, by decide, by decide,
    message_without_event_and_method_is_ignored noParse pendingDuration _
      (.obj [("value", .num (.finite "83"))]) rfl (by simp) (by simp) (by decide) (by decide)⟩

/-- C7, counterexample: `null` has neither property, and reading `data.event`
on line 65 raises a `TypeError`. -/
theorem null_message_raises :
    hasField .null "event" = false ∧ hasField .null "method" = false ∧
      (processData noParse pendingDuration .null).raised = some .typeError := by
  refine ⟨rfl, rfl, by decide⟩

/-! ## C8: event-keyed waiters stay registered -/

/-- Frame of `dispatch`: a key that is neither `data.method` nor
`data.data.method` keeps its waiters. -/
theorem dispatch_reg_other (reg : Registry) (data : JsVal) (k : String)
    (hmethod : getProp data "method" ≠ .ok (.str k))
    (hdata : ∀ dd, getProp data "data" = .ok dd → getProp dd "method" ≠ .ok (.str k)) :
    (dispatch reg data).reg k = reg k := by
  cases hev : getProp data "event" with
  | error e => simp [dispatch, hev]
  | ok event =>
    obtain ⟨d, hd⟩ := getProp_ok_of_ok data event "event" "data" hev
    obtain ⟨m, hm⟩ := getProp_ok_of_ok data event "event" "method" hev
    obtain ⟨v, hv⟩ := getProp_ok_of_ok data event "event" "value" hev
    have hrej : (rejectPending reg data).reg k = reg k :=
      rejectPending_reg_other reg data d k hd (hdata d hd)
    unfold dispatch
    simp only [hev, hd, hm, hv]
    by_cases ht : truthy event = true
    · simp only [ht, if_true]
      by_cases he : isErrorEvent event = true
      · simp only [he, if_true]
        cases hr : (rejectPending reg data).raised with
        | some e => simpa using hrej
        | none =>
          cases toStr event with
          | none => simpa using hrej
          | some name => simpa [deliver_eq] using hrej
      · simp only [he]
        cases toStr event with
        | none => simp
        | some name => simp [deliver_eq]
    · simp only [ht]
      by_cases htm : truthy m = true
      · have hmk : m ≠ .str k := fun h => hmethod (by rw [hm, h])
        simp only [htm, if_true, deliver_eq]
        unfold removeCallback
        cases m with
        | str s =>
          have : k ≠ s := fun h => hmk (by rw [h])
          simp [Function.update, this]
        | _ => simp
      · simp [htm, deliver]

/-- C8 (as amended): for every registry, every inbound message and every
event key `"event:" + E`, `processData` removes no waiter registered under
that key, provided the key is not itself named as a method by the message:
it is neither `data.method` (a call reply for it would evict the key) nor
`data.data.method` (an error event for it would reject and remove its
handles). -/
theorem event_keyed_waiters_stay (jsonParse : String → Option JsVal) (reg : Registry)
    (raw : JsVal) (E : String)
    (hkey : ∀ data, parseMessageData jsonParse raw = .ok data →
      getProp data "method" ≠ .ok (.str ("event:" ++ E)) ∧
        ∀ dd, getProp data "data" = .ok dd → getProp dd "method" ≠ .ok (.str ("event:" ++ E))) :
    (processData jsonParse reg raw).reg ("event:" ++ E) = reg ("event:" ++ E) := by
  cases hraw : parseMessageData jsonParse raw with
  | error e => simp [processData, hraw]
  | ok data =>
    rw [processData_decoded jsonParse reg raw _ hraw]
    exact dispatch_reg_other reg data _ (hkey data hraw).1 (hkey data hraw).2

/-- C8, witness: the error event for `getDuration` leaves the subscribers of
`play` registered. -/
theorem event_keyed_waiters_stay_witness :
    (processData noParse subscribersPlay (errorEvent "getDuration" "Error" "no")).reg
        ("event:" ++ "play") = subscribersPlay ("event:" ++ "play") := by
  apply event_keyed_waiters_stay noParse subscribersPlay _ "play"
  intro data hdata
  have hd : data = errorEvent "getDuration" "Error" "no" := by
    simpa [parseMessageData, errorEvent, eventMessage] using hdata.symm
  subst hd
  refine ⟨by simp [errorEvent, eventMessage, getProp, List.lookup], ?_⟩
  intro dd hdd
  have : dd = .obj [("method", .str "getDuration"), ("name", .str "Error"),
      ("message", .str "no")] := by
    simpa [errorEvent, eventMessage, getProp, List.lookup] using hdd.symm
  subst this
  simp [getProp, List.lookup]

/-- C8, counterexample: the call reply `{method: "event:play", value: 1}`
names an event key as its method; line 86 (`removeCallback(player,
data.method)`) evicts both subscribers of `play`. -/
theorem callReply_evicts_event_key :
    getCallbacks subscribersPlay (.str ("event:" ++ "play")) =
        [.callback 3 true, .callback 4 false] ∧
      getCallbacks (processData noParse subscribersPlay (callReply "event:play" (.num (.finite "1")))).reg
        (.str ("event:" ++ "play")) = [] := by
  refine ⟨by decide, by decide⟩

/-! ## C9: method-keyed waiters over a sequence of messages -/

/-- C9, at the failing input: one handle pending under `getDuration`, whose
`reject` raises, then an error event and a call reply for `getDuration`. The
exception of `reject` leaves the loop of lines 69-75 before line 74 removes
the handle, so the handle is still registered when the reply comes: it is
rejected and then resolved. -/
theorem handle_rejected_then_resolved :
    (processAll noParse
        [errorEvent "getDuration" "Error" "no", callReply "getDuration" (.num (.finite "83"))]
        pendingOneThrowingReject).2 =
      [.rejected (.handle 1 false true) ⟨.str "Error", "no"⟩,
        .resolved (.handle 1 false true) (.num (.finite "83"))] ∧
      (processData noParse pendingOneThrowingReject (errorEvent "getDuration" "Error" "no")).reg
        "getDuration" = [.handle 1 false true] := by
  refine ⟨rfl, by decide⟩

/-! ## C10: `parseMessageData` -/

/-- C10: `parseMessageData` returns every value that is not a string as it
is; for a string it returns the value `JSON.parse` gives for it, and fails,
with the exception of `JSON.parse`, exactly when `JSON.parse` rejects the
string. The exception is not caught by `processData`, which then has done
nothing else. -/
theorem parseMessageData_decodes (jsonParse : String → Option JsVal) (data : JsVal) :
    ((∀ s, data ≠ .str s) → parseMessageData jsonParse data = .ok data) ∧
      (∀ s v, data = .str s → jsonParse s = some v →
        parseMessageData jsonParse data = .ok v) ∧
      (∀ s, data = .str s →
        (parseMessageData jsonParse data = .error .syntaxError ↔ jsonParse s = none)) ∧
      (∀ e, parseMessageData jsonParse data = .error e →
        e = .syntaxError ∧ ∃ s, data = .str s ∧ jsonParse s = none) ∧
      (∀ e reg, parseMessageData jsonParse data = .error e →
        processData jsonParse reg data = ⟨reg, [], some e⟩) := by
  refine ⟨?_, ?_, ?_, ?_, ?_⟩
  · intro h
    cases data <;> simp [parseMessageData] at h ⊢
  · rintro s v rfl hv
    simp [parseMessageData, hv]
  · rintro s rfl
    unfold parseMessageData
    cases hp : jsonParse s <;> simp [hp]
  · intro e he
    cases data with
    | str s =>
      unfold parseMessageData at he
      cases hp : jsonParse s with
      | none =>
        simp [hp] at he
        exact ⟨he.symm, s, rfl, hp⟩
      | some v => simp [hp] at he
    | _ => simp [parseMessageData] at he
  · intro e reg he
    simp [processData, he]

/-! ## Method-keyed waiters whose `reject` returns are single-use

The number of calls a run makes on a waiter `w`, plus the number of times `w`
is still registered under its method key `M`, never exceeds the number of
times it was registered under `M`: each registration is used up by the call
that consumes it. This needs `w` not to be a handle whose `reject` raises. -/

theorem countP_callOf (v : JsVal) (w : Waiter) (ws : List Waiter) :
    List.countP (fun c => decide (c.waiter = w)) (ws.map (callOf v)) = ws.count w := by
  rw [List.countP_eq_length_filter]
  exact calls_on_waiter v w ws

theorem rejectLoop_trace_mem (dd key : JsVal) (ws : List Waiter) (reg : Registry) :
    ∀ c ∈ (rejectLoop dd key ws reg).trace, c.waiter ∈ ws := by
  induction ws generalizing reg with
  | nil => simp [rejectLoop]
  | cons p rest ih =>
    unfold rejectLoop
    cases makeError dd with
    | error e => simp
    | ok err =>
      cases p with
      | callback id t => simp
      | handle id r j =>
        cases j with
        | true => simp [Call.waiter]
        | false =>
          simp only [Bool.false_eq_true, if_false, List.mem_cons]
          rintro c (rfl | hc)
          · exact Or.inl rfl
          · exact Or.inr (ih _ c hc)

theorem removeCallback_subset (reg : Registry) (key : JsVal) (waiter : Option Waiter)
    (k : String) (x : Waiter) (hx : x ∈ removeCallback reg key waiter k) : x ∈ reg k := by
  unfold removeCallback at hx
  cases key with
  | str s =>
    by_cases hks : k = s
    · subst hks
      cases waiter with
      | none => simp at hx
      | some p =>
        simp only [Function.update_same] at hx
        exact List.mem_of_mem_erase hx
    · cases waiter <;> simpa [Function.update, hks] using hx
  | _ => exact hx

theorem rejectLoop_reg_subset (dd key : JsVal) (k : String) (x : Waiter) (ws : List Waiter)
    (reg : Registry) (hx : x ∈ (rejectLoop dd key ws reg).reg k) : x ∈ reg k := by
  induction ws generalizing reg with
  | nil => exact hx
  | cons p rest ih =>
    unfold rejectLoop at hx
    cases hme : makeError dd with
    | error e => simpa [hme] using hx
    | ok err =>
      cases p with
      | callback id t => simpa [hme] using hx
      | handle id r j =>
        cases j with
        | true => simpa [hme] using hx
        | false =>
          simp only [hme, Bool.false_eq_true, if_false] at hx
          exact removeCallback_subset reg key _ k x (ih _ hx)

theorem rejectPending_reg_subset (reg : Registry) (data : JsVal) (k : String) (x : Waiter)
    (hx : x ∈ (rejectPending reg data).reg k) : x ∈ reg k := by
  unfold rejectPending at hx
  cases hd : getProp data "data" with
  | error e => simpa [hd] using hx
  | ok dd =>
    simp only [hd] at hx
    cases hm : getProp dd "method" with
    | error e => simpa [hm] using hx
    | ok key =>
      simp only [hm] at hx
      exact rejectLoop_reg_subset dd key k x _ reg hx

/-- The rejection loop over the waiters of `M`, started on the list the
registry holds under `M`. -/
theorem rejectLoop_budget (dd : JsVal) (M : String) (w : Waiter)
    (hw : ∀ id r, w ≠ .handle id r true) (ws : List Waiter) (reg : Registry)
    (hreg : reg M = ws) :
    List.countP (fun c => decide (c.waiter = w)) (rejectLoop dd (.str M) ws reg).trace +
      ((rejectLoop dd (.str M) ws reg).reg M).count w ≤ ws.count w := by
  induction ws generalizing reg with
  | nil => simp [rejectLoop, hreg]
  | cons p rest ih =>
    unfold rejectLoop
    cases makeError dd with
    | error e => simp [hreg]
    | ok err =>
      cases p with
      | callback id t => simp [hreg]
      | handle id r j =>
        cases j with
        | true =>
          have hne : Waiter.handle id r true ≠ w := fun h => hw id r h.symm
          simp [hreg, Call.waiter, hne]
        | false =>
          have hreg2 : removeCallback reg (.str M) (some (.handle id r false)) M = rest := by
            simp [removeCallback, hreg]
          have h := ih _ hreg2
          simp only [Bool.false_eq_true, if_false]
          rw [List.countP_cons, List.count_cons]
          have hf : (Call.rejected (.handle id r false) err).waiter = .handle id r false := rfl
          rw [hf]
          by_cases hp : Waiter.handle id r false = w
          · have hp2 : (Waiter.handle id r false == w) = true := by simpa using hp
            rw [hp2]
            simp only [hp, decide_True, if_true]
            rw [hp] at h
            omega
          · have hp2 : (Waiter.handle id r false == w) = false := by simpa using hp
            rw [hp2]
            simp only [hp, decide_False]
            simpa using h

theorem countP_eq_zero_of_waiters (w : Waiter) (ws : List Waiter) (trace : List Call)
    (hmem : ∀ c ∈ trace, c.waiter ∈ ws) (hw : w ∉ ws) :
    List.countP (fun c => decide (c.waiter = w)) trace = 0 := by
  rw [List.countP_eq_zero]
  intro c hc
  have := hmem c hc
  simp only [decide_eq_true_eq]
  rintro rfl
  exact hw this

theorem getCallbacks_not_mem (reg : Registry) (key : JsVal) (w : Waiter) (M : String)
    (hkey : key ≠ .str M) (hother : ∀ k, k ≠ M → w ∉ reg k) : w ∉ getCallbacks reg key := by
  cases key with
  | str s =>
    have : s ≠ M := fun h => hkey (by rw [h])
    exact hother s this
  | _ => simp [getCallbacks]

theorem rejectPending_budget (reg : Registry) (data : JsVal) (w : Waiter) (M : String)
    (hw : ∀ id r, w ≠ .handle id r true) (hother : ∀ k, k ≠ M → w ∉ reg k) :
    List.countP (fun c => decide (c.waiter = w)) (rejectPending reg data).trace +
      ((rejectPending reg data).reg M).count w ≤ (reg M).count w := by
  unfold rejectPending
  cases getProp data "data" with
  | error e => simp
  | ok dd =>
    simp only
    cases getProp dd "method" with
    | error e => simp
    | ok key =>
      simp only
      by_cases hkey : key = .str M
      · subst hkey
        exact rejectLoop_budget dd M w hw (reg M) reg rfl
      · have h0 := countP_eq_zero_of_waiters w _ _
          (rejectLoop_trace_mem dd key (getCallbacks reg key) reg)
          (getCallbacks_not_mem reg key w M hkey hother)
        rw [h0, rejectLoop_reg_other dd key M hkey]
        simp

theorem deliver_trace (ws : List Waiter) (v : JsVal) (out : Outcome) :
    (deliver ws v out).trace = out.trace ++ ws.map (callOf v) := by
  rw [deliver_eq]

theorem deliver_reg (ws : List Waiter) (v : JsVal) (out : Outcome) :
    (deliver ws v out).reg = out.reg := by
  rw [deliver_eq]

theorem dispatch_reg_subset (reg : Registry) (data : JsVal) (k : String) (x : Waiter)
    (hx : x ∈ (dispatch reg data).reg k) : x ∈ reg k := by
  cases hev : getProp data "event" with
  | error e => simpa [dispatch, hev] using hx
  | ok event =>
    obtain ⟨d, hd⟩ := getProp_ok_of_ok data event "event" "data" hev
    obtain ⟨m, hm⟩ := getProp_ok_of_ok data event "event" "method" hev
    obtain ⟨v, hv⟩ := getProp_ok_of_ok data event "event" "value" hev
    unfold dispatch at hx
    simp only [hev, hd, hm, hv] at hx
    by_cases ht : truthy event = true
    · simp only [ht, if_true] at hx
      by_cases he : isErrorEvent event = true
      · simp only [he, if_true] at hx
        apply rejectPending_reg_subset reg data k x
        cases hr : (rejectPending reg data).raised with
        | some e => simpa [hr] using hx
        | none =>
          simp only [hr] at hx
          cases hs : toStr event with
          | none => simpa [hs] using hx
          | some name => simpa [hs, deliver_eq] using hx
      · simp only [he] at hx
        cases hs : toStr event with
        | none => simpa [hs] using hx
        | some name => simpa [hs, deliver_eq] using hx
    · simp only [ht] at hx
      by_cases htm : truthy m = true
      · simp only [htm, if_true, deliver_eq] at hx
        exact removeCallback_subset reg m none k x hx
      · simpa [htm, deliver] using hx

/-- One message: the calls made on `w` and the registrations of `w` left
under `M` together do not exceed the registrations of `w` under `M` before. -/
theorem dispatch_budget (reg : Registry) (data : JsVal) (w : Waiter) (M : String)
    (hw : ∀ id r, w ≠ .handle id r true) (hM : ∀ name, M ≠ "event:" ++ name)
    (hother : ∀ k, k ≠ M → w ∉ reg k) :
    List.countP (fun c => decide (c.waiter = w)) (dispatch reg data).trace +
      ((dispatch reg data).reg M).count w ≤ (reg M).count w := by
  cases hev : getProp data "event" with
  | error e => simp [dispatch, hev]
  | ok event =>
    obtain ⟨d, hd⟩ := getProp_ok_of_ok data event "event" "data" hev
    obtain ⟨m, hm⟩ := getProp_ok_of_ok data event "event" "method" hev
    obtain ⟨v, hv⟩ := getProp_ok_of_ok data event "event" "value" hev
    have hrej := rejectPending_budget reg data w M hw hother
    unfold dispatch
    simp only [hev, hd, hm, hv]
    by_cases ht : truthy event = true
    · simp only [ht, if_true]
      by_cases he : isErrorEvent event = true
      · simp only [he, if_true]
        cases hr : (rejectPending reg data).raised with
        | some e => simpa using hrej
        | none =>
          cases hs : toStr event with
          | none => simpa using hrej
          | some name =>
            have hnot : w ∉ (rejectPending reg data).reg ("event:" ++ name) := fun h =>
              hother _ (fun h2 => hM name h2.symm) (rejectPending_reg_subset reg data _ w h)
            rw [deliver_trace, deliver_reg, List.countP_append, countP_callOf]
            simp only [getCallbacks]
            rw [List.count_eq_zero_of_not_mem hnot]
            simpa using hrej
      · simp only [he]
        cases hs : toStr event with
        | none => simp
        | some name =>
          have hnot : w ∉ reg ("event:" ++ name) := hother _ (fun h2 => hM name h2.symm)
          simp only [Bool.false_eq_true, if_false, deliver_trace, deliver_reg,
            List.countP_append, countP_callOf, getCallbacks, List.countP_nil,
            List.count_eq_zero_of_not_mem hnot]
          simp
    · simp only [ht, Bool.false_eq_true, if_false]
      by_cases htm : truthy m = true
      · simp only [htm, if_true, deliver_trace, deliver_reg, List.countP_append, countP_callOf,
          List.countP_nil, Nat.zero_add]
        by_cases hkey : m = .str M
        · subst hkey
          simp [getCallbacks, removeCallback]
        · rw [List.count_eq_zero_of_not_mem (getCallbacks_not_mem reg m w M hkey hother)]
          have : removeCallback reg m none M = reg M := by
            unfold removeCallback
            cases m with
            | str s =>
              have : M ≠ s := fun h => hkey (by rw [h])
              simp [Function.update, this]
            | _ => rfl
          simp [this]
      · simp [htm, deliver]

theorem processData_budget (jsonParse : String → Option JsVal) (reg : Registry) (raw : JsVal)
    (w : Waiter) (M : String) (hw : ∀ id r, w ≠ .handle id r true)
    (hM : ∀ name, M ≠ "event:" ++ name) (hother : ∀ k, k ≠ M → w ∉ reg k) :
    (List.countP (fun c => decide (c.waiter = w)) (processData jsonParse reg raw).trace +
        ((processData jsonParse reg raw).reg M).count w ≤ (reg M).count w) ∧
      ∀ k, k ≠ M → w ∉ (processData jsonParse reg raw).reg k := by
  unfold processData
  cases parseMessageData jsonParse raw with
  | error e => exact ⟨by simp, hother⟩
  | ok data =>
    exact ⟨dispatch_budget reg data w M hw hM hother,
      fun k hk h => hother k hk (dispatch_reg_subset reg data k w h)⟩

/-- Over any sequence of messages, a waiter registered under the method key
`M` only, and which is not a handle whose `reject` raises, is called,
resolved or rejected at most as many times as it is registered under `M`:
at most once for a waiter registered once. -/
theorem processAll_budget (jsonParse : String → Option JsVal) (msgs : List JsVal)
    (reg : Registry) (w : Waiter) (M : String) (hw : ∀ id r, w ≠ .handle id r true)
    (hM : ∀ name, M ≠ "event:" ++ name) (hother : ∀ k, k ≠ M → w ∉ reg k) :
    List.countP (fun c => decide (c.waiter = w)) (processAll jsonParse msgs reg).2 +
      ((processAll jsonParse msgs reg).1 M).count w ≤ (reg M).count w := by
  induction msgs generalizing reg with
  | nil => simp [processAll]
  | cons raw rest ih =>
    obtain ⟨h1, h2⟩ := processData_budget jsonParse reg raw w M hw hM hother
    have h3 := ih (processData jsonParse reg raw).reg h2
    simp only [processAll, List.countP_append]
    omega

/-! ## C11: `postMessage` when the target cannot receive -/

/-- When the window of the frame has no `postMessage`, line 31 returns: no
delivery is made and nothing is raised, for every method and params. -/
theorem postMessage_drops_without_primitive (player : Player) (target : Window)
    (ieVersion : Option ℚ) (method : String) (params : JsVal)
    (htarget : player.contentWindow = some target) (hpost : target.hasPostMessage = false) :
    postMessage player ieVersion method params = .dropped := by
  simp [postMessage, htarget, hpost]

/-- C11, at the failing input: the frame has no window
(`player.element.contentWindow` is `null`). Line 31 reads `.postMessage` of
it, which raises a `TypeError`, for every method, params and detected
version, where the claim says the call is dropped without an error; with a
window that lacks `postMessage` the call is dropped. -/
theorem postMessage_raises_without_window :
    detachedPlayer.contentWindow = none ∧
      postMessage detachedPlayer none "play" .undefined = .raised .typeError ∧
      postMessage detachedPlayer (some 9) "setVolume" (.num (.finite "1")) = .raised .typeError ∧
      postMessage unreadyPlayer none "play" .undefined = .dropped := by
  refine ⟨rfl, rfl, rfl, rfl⟩

/-! ## C12: the one delivery of `postMessage` -/

/-- C12: when the window of the frame has `postMessage`, the call makes one
delivery, on that window, with `player.origin` as the target origin. Its
payload is the text `JSON.stringify(message)`, a string, exactly when the
number `v` that line 44 reads off the user agent has `8 <= v < 10`; for every
other `v`, and when that number is `NaN`, it is the message object itself,
which is not a string. The text is a JSON text of the message: when `params`
is `undefined` or `jsonSafe`, it reads back (`jsonDecode`) as the message. -/
theorem postMessage_delivers_once (readNumber : String → Option JsNum) (player : Player)
    (target : Window) (ieVersion : Option ℚ)
    (method : String) (params : JsVal)
    (htarget : player.contentWindow = some target) (hpost : target.hasPostMessage = true) :
    (∃ payload, postMessage player ieVersion method params = .delivered payload player.origin ∧
        ((∃ v, ieVersion = some v ∧ 8 ≤ v ∧ v < 10) →
          ∃ text, jsonStringify (buildMessage method params) = some text ∧
            payload = .str text ∧
            (params = .undefined ∨ jsonSafe readNumber params = true →
              jsonDecode readNumber text = some (buildMessage method params))) ∧
        ((¬ ∃ v, ieVersion = some v ∧ 8 ≤ v ∧ v < 10) →
          payload = buildMessage method params) ∧
        ((∃ text, payload = .str text) ↔ ∃ v, ieVersion = some v ∧ 8 ≤ v ∧ v < 10)) ∧
      (stringifies ieVersion = true ↔ ∃ v, ieVersion = some v ∧ 8 ≤ v ∧ v < 10) := by
  have hs : stringifies ieVersion = true ↔ ∃ v, ieVersion = some v ∧ 8 ≤ v ∧ v < 10 := by
    cases ieVersion with
    | none => simp [stringifies]
    | some v => simp [stringifies]
  refine ⟨?_, hs⟩
  by_cases h : stringifies ieVersion = true
  · obtain ⟨text, htext⟩ := jsonStringify_buildMessage method params
    refine ⟨.str text, by simp [postMessage, htarget, hpost, h, htext], ?_,
      fun hn => absurd (hs.mp h) hn, ?_⟩
    · intro _
      refine ⟨text, htext, rfl, ?_⟩
      intro hsafe
      obtain ⟨text', htext', hdecode⟩ := jsonDecode_jsonStringify readNumber _
        (jsonSafe_buildMessage readNumber method params hsafe)
      have : text' = text := by
        rw [htext] at htext'
        exact (Option.some.inj htext').symm
      subst this
      exact hdecode
    · exact ⟨fun _ => hs.mp h, fun _ => ⟨text, rfl⟩⟩
  · have hne : ¬ ∃ v, ieVersion = some v ∧ 8 ≤ v ∧ v < 10 := fun hv => h (hs.mpr hv)
    refine ⟨buildMessage method params, by simp [postMessage, htarget, hpost, h],
      fun hv => absurd hv hne, fun _ => rfl, ?_⟩
    constructor
    · rintro ⟨text, ht⟩
      simp [buildMessage] at ht
    · intro hv
      exact absurd hv hne

/-- C12, witness: `setColor` with parameters that hold a string to escape, a
fraction, a negative integer, `null`, arrays and an object is sent once, for
the version 9, by a player whose window has `postMessage`: the payload is
the JSON text of the message, character for character, and reads back as
the message. -/
theorem postMessage_delivers_once_witness :
    readyPlayer.contentWindow = some ⟨true⟩ ∧ (⟨true⟩ : Window).hasPostMessage = true ∧
      postMessage readyPlayer (some 9) "setColor" sampleParams =
        .delivered (.str sampleText) readyPlayer.origin ∧
      jsonDecode readOneAndAHalf sampleText =
        some (.obj [("method", .str "setColor"), ("value", sampleParams)]) := by
  obtain ⟨⟨payload, h1, h2, -, -⟩, -⟩ :=
    postMessage_delivers_once readOneAndAHalf readyPlayer ⟨true⟩ (some 9) "setColor"
      sampleParams rfl rfl
  obtain ⟨text, htext, hpayload, hback⟩ := h2 ⟨9, rfl, by norm_num, by norm_num⟩
  have ht : text = sampleText := by
    have : jsonStringify (buildMessage "setColor" sampleParams) = some sampleText := by
      decide
    rw [this] at htext
    exact (Option.some.inj htext).symm
  rw [hpayload, ht] at h1
  rw [ht] at hback
  exact ⟨rfl, rfl, h1, hback (Or.inr (by decide))⟩

/-! ## C13: an exception of `reject` during an error event -/

/-- C13, at the failing inputs: an error event for `getDuration`, well formed,
met by a function followed by a handle, and met by a handle whose `reject`
raises followed by another handle. Lines 69-75 have no `try`: the
`TypeError` of calling the missing `reject`, or the exception of `reject`,
leaves `processData`; the handle that comes after is not rejected, and all
waiters stay registered. -/
theorem errorEvent_exception_escapes :
    (processData noParse pendingFunctionFirst (errorEvent "getDuration" "Error" "no")).raised =
        some .typeError ∧
      (processData noParse pendingFunctionFirst (errorEvent "getDuration" "Error" "no")).trace =
        [] ∧
      (processData noParse pendingFunctionFirst (errorEvent "getDuration" "Error" "no")).reg
        "getDuration" = [.callback 7 false, .handle 2 false false] ∧
      (processData noParse pendingThrowingReject (errorEvent "getDuration" "Error" "no")).raised =
        some (.thrown 1) ∧
      (processData noParse pendingThrowingReject (errorEvent "getDuration" "Error" "no")).trace =
        [.rejected (.handle 1 false true) ⟨.str "Error", "no"⟩] ∧
      (processData noParse pendingThrowingReject (errorEvent "getDuration" "Error" "no")).reg
        "getDuration" = [.handle 1 false true, .handle 2 false false] := by
  refine ⟨by decide, rfl, by decide, by decide, rfl, by decide⟩

/-! ## C14: how a message is classified -/

theorem dispatch_truthy_event (reg : Registry) (data ev d : JsVal) (name : String)
    (hev : getProp data "event" = .ok ev) (ht : truthy ev = true)
    (hne : isErrorEvent ev = false) (hname : toStr ev = some name)
    (hd : getProp data "data" = .ok d) :
    dispatch reg data = ⟨reg, (getCallbacks reg (.str ("event:" ++ name))).map (callOf d), none⟩ := by
  unfold dispatch
  simp [hev, ht, hne, hname, hd, deliver_eq]

theorem dispatch_error_event (reg : Registry) (data ev d : JsVal)
    (hev : getProp data "event" = .ok ev) (herr : isErrorEvent ev = true)
    (hd : getProp data "data" = .ok d) (hrej : (rejectPending reg data).raised = none) :
    dispatch reg data =
      ⟨(rejectPending reg data).reg,
        (rejectPending reg data).trace ++
          (getCallbacks (rejectPending reg data).reg (.str "event:error")).map (callOf d),
        none⟩ := by
  have hevent : ev = .str "error" := by
    cases ev <;> simp [isErrorEvent] at herr
    rw [herr]
  subst hevent
  unfold dispatch
  simp only [hev, hd, truthy, isErrorEvent, toStr, deliver_eq]
  simp [hrej]

theorem dispatch_falsy_event (reg : Registry) (data ev m v : JsVal)
    (hev : getProp data "event" = .ok ev) (hf : truthy ev = false)
    (hm : getProp data "method" = .ok m) (hv : getProp data "value" = .ok v) :
    dispatch reg data =
      if truthy m = true then
        ⟨removeCallback reg m none, (getCallbacks reg m).map (callOf v), none⟩
      else ⟨reg, [], none⟩ := by
  unfold dispatch
  by_cases htm : truthy m = true <;> simp [hev, hf, hm, hv, htm, deliver_eq, deliver]

/-- C14 (as amended): a decoded message is classified by the truthiness of
`data.event` (line 65), not by its presence. When `data.event` is truthy,
whether or not a `method` property is present as well, the message is an
event: the calls made are on the waiters under `"event:" + data.event`, with
`data.data`, and the registry is left as it was, so the waiters under
`data.method` are neither invoked with `data.value` nor evicted (for the event
`error` the rejections of the waiters under `data.data.method` come first,
and the rest follows when they raise nothing). When `data.event` is absent
or falsy, the message is a call reply if `data.method` is truthy (the
waiters under `data.method` are invoked with `data.value` and evicted) and is
ignored otherwise. -/
theorem message_classified_by_truthiness (jsonParse : String → Option JsVal) (reg : Registry)
    (raw data ev : JsVal) (hraw : parseMessageData jsonParse raw = .ok data)
    (hev : getProp data "event" = .ok ev) :
    (truthy ev = true → isErrorEvent ev = false →
        ∀ name d, toStr ev = some name → getProp data "data" = .ok d →
          processData jsonParse reg raw =
            ⟨reg, (getCallbacks reg (.str ("event:" ++ name))).map (callOf d), none⟩) ∧
      (truthy ev = true → isErrorEvent ev = true →
        ∀ d, getProp data "data" = .ok d → (rejectPending reg data).raised = none →
          processData jsonParse reg raw =
            ⟨(rejectPending reg data).reg,
              (rejectPending reg data).trace ++
                (getCallbacks (rejectPending reg data).reg (.str "event:error")).map (callOf d),
              none⟩) ∧
      (truthy ev = false →
        ∀ m v, getProp data "method" = .ok m → getProp data "value" = .ok v →
          processData jsonParse reg raw =
            if truthy m = true then
              ⟨removeCallback reg m none, (getCallbacks reg m).map (callOf v), none⟩
            else ⟨reg, [], none⟩) := by
  rw [processData_decoded jsonParse reg raw _ hraw]
  refine ⟨?_, ?_, ?_⟩
  · intro ht hne name d hname hd
    exact dispatch_truthy_event reg data ev d name hev ht hne hname hd
  · intro _ herr d hd hrej
    exact dispatch_error_event reg data ev d hev herr hd hrej
  · intro hf m v hm hv
    exact dispatch_falsy_event reg data ev m v hev hf hm hv

/-- C14, witness: the event `play` that also names the method `getDuration`
notifies the subscriber of `play` with `data` and leaves the handle pending
under `getDuration` alone. -/
theorem message_classified_by_truthiness_witness :
    parseMessageData noParse playEventWithMethod = .ok playEventWithMethod ∧
      getProp playEventWithMethod "event" = .ok (.str "play") ∧
      processData noParse subscriberAndPending playEventWithMethod =
        ⟨subscriberAndPending, [.called (.callback 4 false) (.num (.finite "1"))], none⟩ := by
  have h := (message_classified_by_truthiness noParse subscriberAndPending playEventWithMethod
    playEventWithMethod (.str "play") rfl rfl).1 rfl rfl "play" (.num (.finite "1")) rfl rfl
  exact ⟨rfl, rfl, h⟩

/-- C14, counterexample: a message whose `event` property is present and is
the empty string, with `method: "getDuration"` and `value: 83`. Line 65 finds
`data.event` falsy, so the message is routed as a call reply: both handles
pending under `getDuration` are resolved with 83 and evicted. -/
theorem present_falsy_event_is_a_reply :
    hasField emptyEventReply "event" = true ∧
      (processData noParse pendingDuration emptyEventReply).trace =
        [.resolved (.handle 1 false false) (.num (.finite "83")),
          .resolved (.handle 2 false false) (.num (.finite "83"))] ∧
      getCallbacks pendingDuration (.str "getDuration") =
        [.handle 1 false false, .handle 2 false false] ∧
      getCallbacks (processData noParse pendingDuration emptyEventReply).reg
        (.str "getDuration") = [] := by
  refine ⟨by decide, rfl, by decide, by decide⟩

/-- An event whose name is a number is routed under the text that
`Number::toString` prints for that number: the event 10^21 reaches the
subscriber of `event:1e+21`. -/
theorem numeric_event_names_its_key :
    processData noParse subscribersLargeNumber
        (.obj [("event", .num (.finite "1e+21")), ("data", .null)]) =
      ⟨subscribersLargeNumber, [.called (.callback 8 false) .null], none⟩ := by
  have h := dispatch_truthy_event subscribersLargeNumber
    (.obj [("event", .num (.finite "1e+21")), ("data", .null)]) (.num (.finite "1e+21")) .null
    "1e+21" rfl (by decide) rfl rfl rfl
  rw [processData_decoded noParse subscribersLargeNumber
    (.obj [("event", .num (.finite "1e+21")), ("data", .null)])
    (.obj [("event", .num (.finite "1e+21")), ("data", .null)]) rfl, h]
  rfl

/-! ## C15: a reply that finds no waiter -/

/-- C15: for every registry and every method `M` with no waiter registered
under `M`, routing a message that is the call reply `{method: M, value: v}`
or decodes to it invokes no waiter, leaves the registry as it was and raises
nothing. -/
theorem callReply_without_waiter_is_dropped (jsonParse : String → Option JsVal)
    (reg : Registry) (raw : JsVal) (M : String) (v : JsVal)
    (hraw : parseMessageData jsonParse raw = .ok (callReply M v))
    (hnone : getCallbacks reg (.str M) = []) :
    processData jsonParse reg raw = ⟨reg, [], none⟩ := by
  rw [processData_decoded jsonParse reg raw _ hraw]
  have hM : reg M = [] := hnone
  by_cases h : M = ""
  · subst h
    exact dispatch_callReply_empty reg v
  · rw [dispatch_callReply reg M v h, hM]
    have : Function.update reg M [] = reg := by
      rw [← hM]
      exact Function.update_eq_self M reg
    simp [this]

/-- C15, witness: a reply for `getVolume` while only `getDuration` has
pending handles. -/
theorem callReply_without_waiter_is_dropped_witness :
    parseMessageData noParse (callReply "getVolume" (.num (.finite "1"))) =
        .ok (callReply "getVolume" (.num (.finite "1"))) ∧
      getCallbacks pendingDuration (.str "getVolume") = [] ∧
      processData noParse pendingDuration (callReply "getVolume" (.num (.finite "1"))) =
        ⟨pendingDuration, [], none⟩ :=
  ⟨rfl, by decide,
    callReply_without_waiter_is_dropped noParse pendingDuration _ "getVolume" (.num (.finite "1")) rfl
      (by decide)⟩

/-! ## C16: the keys a reply or an error event leaves alone -/

/-- C16: routing a call reply for the method `M`, or an error event naming
the method `M`, leaves the list of waiters under every key other than `M` as
it was, the same waiters in the same order; this holds also when the run
raises. -/
theorem other_keys_keep_their_waiters (jsonParse : String → Option JsVal) (reg : Registry)
    (raw : JsVal) (M n m : String) (v : JsVal) (k : String)
    (hraw : parseMessageData jsonParse raw = .ok (callReply M v) ∨
      parseMessageData jsonParse raw = .ok (errorEvent M n m))
    (hk : k ≠ M) :
    (processData jsonParse reg raw).reg k = reg k := by
  have hne : JsVal.str M ≠ JsVal.str k := fun h => hk (JsVal.str.inj h).symm
  rcases hraw with hraw | hraw
  · rw [processData_decoded jsonParse reg raw _ hraw]
    apply dispatch_reg_other
    · simp [callReply, getProp, List.lookup, hne]
    · intro dd hdd
      have : dd = .undefined := by
        simpa [callReply, getProp, List.lookup] using hdd.symm
      subst this
      simp [getProp]
  · rw [processData_decoded jsonParse reg raw _ hraw]
    apply dispatch_reg_other
    · simp [errorEvent, eventMessage, getProp, List.lookup]
    · intro dd hdd
      have : dd = .obj [("method", .str M), ("name", .str n), ("message", .str m)] := by
        simpa [errorEvent, eventMessage, getProp, List.lookup] using hdd.symm
      subst this
      simp [getProp, List.lookup, hne]

/-- C16, witness: a reply for `getDuration` leaves the two handles pending
under `getVolume` in place. -/
theorem other_keys_keep_their_waiters_witness :
    "getVolume" ≠ "getDuration" ∧
      (processData noParse pendingTwoMethods (callReply "getDuration" (.num (.finite "83")))).reg
        "getVolume" = [.handle 2 false false, .handle 3 false false] := by
  have h := other_keys_keep_their_waiters noParse pendingTwoMethods
    (callReply "getDuration" (.num (.finite "83"))) "getDuration" "" "" (.num (.finite "83")) "getVolume"
    (Or.inl rfl) (by decide)
  refine ⟨by decide, ?_⟩
  rw [h]
  decide

end Postmessage
